import Mathlib

/-!
Verification of the `Trainer` day/night training loop of
`src/omega/training/trainer.py` (package `omega`).

The trainer is embedded as a deterministic state machine over explicit
state (`TrainerState`) with an event trace recording every externally
observable effect: the environment batch stepper's `reset` and `step`
calls, the stats sink's `add_transition` and `add_rolling_stats` calls,
and the agent's `train_on_batch` call.

External collaborators declared outside the analyzed sources
(`RayEnvStepper`, the agent object, `pytree.stack`) are modelled from the
spec's contracts (spec sections 4.2, 4.3, 4.4); every such definition says
so in its doc comment.  Scalar observation / action / memory / reward
payloads are opaque to the trainer, so they are represented by `Nat` / `Int`
values that the trainer merely moves around; the host/device transfer
boundary (`pytree.to_numpy` / `pytree.to_jax`, spec section 9) is the
identity on these opaque payloads, so the numpy and jax views of a batch
are one value here.
-/

namespace Omega

/-- Per-slot projection of one batched transition record, used to state what
the stacked trajectory holds at a given (slot, time) position. -/
structure SlotRecord where
  memory_before : Nat
  current_state : Nat
  action : Nat
  memory_state_after : Option Nat
  reward : Int
  done : Bool
  next_state : Nat
deriving Repr, DecidableEq, Inhabited

/-- Result of one call to the environment batch stepper's `step`:
the `{rewards, done, next_state}` dictionary of `trainer.py` line 57,
batched over all slots. -/
structure StepResult where
  rewards : List Int
  done : List Bool
  next_state : List Nat
deriving Repr, DecidableEq, Inhabited

/-- Modelled from the spec: the agent interface of spec section 4.3
(the agent object is an external collaborator, not in the analyzed
sources).  `act_on_batch` returns the action batch together with the
optional `memory_state_after` metadata entry (the only metadata entry the
trainer reads, line 86); `train_on_batch` consumes one stacked trajectory
batch and returns opaque training statistics. -/
structure Agent where
  init_memory_batch : Nat → List Nat
  act_on_batch : List Nat → List Nat → List Nat × Option (List Nat)
  update_memory_batch : List Nat → Option (List Nat) → List Nat → List Bool → List Nat
  train_on_batch : List (List SlotRecord) → Nat

/-- Modelled from the spec: the environment batch interface of spec
section 4.2 (`RayEnvStepper` lives in `omega/utils/gym`, outside the
analyzed sources).  `resetBatch` is what `reset()` returns; `stepFn` is a
deterministic oracle giving the result of the next `step`, as a function
of the action batches sent so far (earliest first) and the current action
batch. -/
structure EnvOracle where
  resetBatch : List Nat
  stepFn : List (List Nat) → List Nat → StepResult

/-- One externally observable effect of the trainer. -/
inductive Event where
  | reset : Event
  | envStep : List Nat → Event
  | addTransition : Nat → Nat → Int → Bool → Event
  | trainOnBatch : List (List SlotRecord) → Event
  | addRollingStats : Nat → Event
deriving Repr, DecidableEq

/-- Errors the embedded code can raise.  `attributeErrorOnNone` models the
Python `AttributeError` raised by `stats.add_rolling_stats(...)` when
`stats` is `None`. -/
inductive PyError where
  | attributeErrorOnNone : PyError
deriving Repr, DecidableEq

/-- The mutable state the `Trainer` object owns across steps
(`trainer.py` lines 15-33), plus the oracle position (`env_history`, the
action batches already sent to the environment stepper) and the event
trace. -/
structure TrainerState where
  current_episode_indices : List Nat
  next_episode_index : Nat
  agent_memory : List Nat
  current_state_batch : List Nat
  env_history : List (List Nat)
  events : List Event
deriving Repr, DecidableEq

/-- The two concrete trainer subclasses of `trainer.py`. -/
inductive TrainerKind where
  | dummy : TrainerKind
  | onPolicy : TrainerKind
deriving Repr, DecidableEq

/-- One batched transition record, `trainer.py` lines 74-82. -/
structure TransitionBatch where
  memory_before : List Nat
  current_state : List Nat
  actions : List Nat
  act_metadata : Option (List Nat)
  rewards : List Int
  done : List Bool
  next_state : List Nat
deriving Repr, DecidableEq, Inhabited

/-- Slot `i`'s column of a batched transition record. -/
def TransitionBatch.slotRecord (tb : TransitionBatch) (i : Nat) : SlotRecord :=
  { memory_before := tb.memory_before.getD i 0
    current_state := tb.current_state.getD i 0
    action := tb.actions.getD i 0
    memory_state_after := tb.act_metadata.map (fun l => l.getD i 0)
    reward := tb.rewards.getD i 0
    done := tb.done.getD i false
    next_state := tb.next_state.getD i 0 }

/-- `Trainer.__init__`, `trainer.py` lines 12-33: store the configuration,
set `current_episode_indices = list(range(num_envs))` and
`next_episode_index = num_envs`, build the agent memory batch, and call
the environment stepper's `reset()` exactly once.  The constructor
performs no validation of `num_envs` or `num_collection_steps`. -/
def Trainer.init (agent : Agent) (env : EnvOracle) (num_envs : Nat) : TrainerState :=
  { current_episode_indices := List.range num_envs
    next_episode_index := num_envs
    agent_memory := agent.init_memory_batch num_envs
    current_state_batch := env.resetBatch
    env_history := []
    events := [Event.reset] }

/-- The per-slot loop of `_run_day`, `trainer.py` lines 60-72: for each
slot in order, if `stats` is not `None` record the transition under the
slot's current episode index, then, if that slot's `done` flag is set,
assign it `next_episode_index` and increment the counter.  Python indexes
`action_batch_np[env_index]` etc.; here the recursion walks the episode
index list and reads the head of the other batches in lockstep. -/
def Trainer.processSlots (statsPresent : Bool) (indices : List Nat)
    (actions : List Nat) (rewards : List Int) (dones : List Bool)
    (next : Nat) : List Nat × Nat × List Event :=
  match indices with
  | [] => ([], next, [])
  | idx :: is =>
    let a := actions.headD 0
    let r := rewards.headD 0
    let d := dones.headD false
    let ev := if statsPresent then [Event.addTransition idx a r d] else []
    let p := if d then (next, next + 1) else (idx, next)
    let rest := Trainer.processSlots statsPresent is actions.tail rewards.tail dones.tail p.2
    (p.1 :: rest.1, rest.2.1, ev ++ rest.2.2)

/-- One iteration of the `_run_day` collection loop, `trainer.py`
lines 52-91: query the agent for actions, step the environment batch,
run the per-slot stats/episode-index loop, append the batched transition
record (pre-update memory, pre-step state), update the agent memory, and
advance the current state batch to `next_state`. -/
def Trainer.day_step (agent : Agent) (env : EnvOracle) (statsPresent : Bool)
    (s : TrainerState) : TrainerState × TransitionBatch :=
  let am := agent.act_on_batch s.current_state_batch s.agent_memory
  let action_batch := am.1
  let act_metadata := am.2
  let res := env.stepFn s.env_history action_batch
  let pr := Trainer.processSlots statsPresent s.current_episode_indices
      action_batch res.rewards res.done s.next_episode_index
  let tb : TransitionBatch :=
    { memory_before := s.agent_memory
      current_state := s.current_state_batch
      actions := action_batch
      act_metadata := act_metadata
      rewards := res.rewards
      done := res.done
      next_state := res.next_state }
  let new_memory := agent.update_memory_batch s.agent_memory act_metadata
      action_batch res.done
  ({ current_episode_indices := pr.1
     next_episode_index := pr.2.1
     agent_memory := new_memory
     current_state_batch := res.next_state
     env_history := s.env_history ++ [action_batch]
     events := s.events ++ [Event.envStep action_batch] ++ pr.2.2 }, tb)

/-- The `for step in range(self.num_collection_steps)` loop of `_run_day`,
returning the final state and the in-order list of per-step batched
transition records (`transition_batches`, earliest first). -/
def Trainer.run_day_loop (agent : Agent) (env : EnvOracle) (statsPresent : Bool) :
    Nat → TrainerState → TrainerState × List TransitionBatch
  | 0, s => (s, [])
  | n + 1, s =>
    let st := Trainer.day_step agent env statsPresent s
    let rest := Trainer.run_day_loop agent env statsPresent n st.1
    (rest.1, st.2 :: rest.2)

/-- Modelled from the spec: `_stack_transition_batches` calls
`pytree.stack(transition_batches, axis=1)` (`omega/utils/pytree` is not
in the analyzed sources).  Per spec section 4.4 the per-step batched
transitions are stacked along a new second (time) axis with the batch
(slot) axis unchanged: the result is indexed by slot, then by time, with
time index 0 the earliest step; `h = 0` yields zero time-steps per slot. -/
def Trainer.stack_transition_batches (num_envs : Nat)
    (transition_batches : List TransitionBatch) : List (List SlotRecord) :=
  (List.range num_envs).map (fun i => transition_batches.map (fun tb => tb.slotRecord i))

/-- `Trainer._run_day`, `trainer.py` lines 49-93: run the collection loop
and stack the collected transition records into one trajectory batch. -/
def Trainer.run_day (agent : Agent) (env : EnvOracle) (statsPresent : Bool)
    (num_collection_steps num_envs : Nat) (s : TrainerState) :
    TrainerState × List (List SlotRecord) :=
  let r := Trainer.run_day_loop agent env statsPresent num_collection_steps s
  (r.1, Trainer.stack_transition_batches num_envs r.2)

/-- `DummyTrainer._run_night`, `trainer.py` lines 105-107: does nothing. -/
def DummyTrainer.run_night (_agent : Agent) (_statsPresent : Bool)
    (_collected_trajectories : List (List SlotRecord)) : List Event × Option PyError :=
  ([], none)

/-- `OnPolicyTrainer._run_night`, `trainer.py` lines 110-113: call
`agent.train_on_batch` on the collected trajectories, then
`stats.add_rolling_stats` on the returned statistics; when `stats` is
`None` the second call raises `AttributeError` (after `train_on_batch`
already ran). -/
def OnPolicyTrainer.run_night (agent : Agent) (statsPresent : Bool)
    (collected_trajectories : List (List SlotRecord)) : List Event × Option PyError :=
  let training_stats := agent.train_on_batch collected_trajectories
  if statsPresent then
    ([Event.trainOnBatch collected_trajectories, Event.addRollingStats training_stats], none)
  else
    ([Event.trainOnBatch collected_trajectories], some PyError.attributeErrorOnNone)

/-- Dispatch of the abstract `_run_night` to the concrete subclass. -/
def Trainer.run_night (kind : TrainerKind) (agent : Agent) (statsPresent : Bool)
    (collected_trajectories : List (List SlotRecord)) : List Event × Option PyError :=
  match kind with
  | TrainerKind.dummy => DummyTrainer.run_night agent statsPresent collected_trajectories
  | TrainerKind.onPolicy => OnPolicyTrainer.run_night agent statsPresent collected_trajectories

/-- `Trainer.run_training_step`, `trainer.py` lines 43-47: the full day
stage, then the night stage on the stacked trajectory batch.  Returns the
new state and the error the night stage raised, if any. -/
def Trainer.run_training_step (kind : TrainerKind) (agent : Agent) (env : EnvOracle)
    (statsPresent : Bool) (num_collection_steps num_envs : Nat)
    (s : TrainerState) : TrainerState × Option PyError :=
  let day := Trainer.run_day agent env statsPresent num_collection_steps num_envs s
  let night := Trainer.run_night kind agent statsPresent day.2
  ({ day.1 with events := day.1.events ++ night.1 }, night.2)

/-- `k` consecutive calls to `run_training_step`.  A raised night-stage
error (possible only for the on-policy variant without a stats sink)
occurs after every state mutation of the call, so the state after a
raising call coincides with the state this iteration carries forward. -/
def Trainer.run_steps (kind : TrainerKind) (agent : Agent) (env : EnvOracle)
    (statsPresent : Bool) (num_collection_steps num_envs : Nat) :
    Nat → TrainerState → TrainerState
  | 0, s => s
  | k + 1, s =>
    Trainer.run_steps kind agent env statsPresent num_collection_steps num_envs k
      (Trainer.run_training_step kind agent env statsPresent num_collection_steps
        num_envs s).1

/-- Recognizer: environment `step` call event. -/
def Event.isEnvStepB : Event → Bool
  | Event.envStep _ => true
  | _ => false

/-- Recognizer: environment `reset` call event. -/
def Event.isResetB : Event → Bool
  | Event.reset => true
  | _ => false

/-- Recognizer: stats sink `add_transition` call event. -/
def Event.isAddTransitionB : Event → Bool
  | Event.addTransition _ _ _ _ => true
  | _ => false

/-- Recognizer: `add_transition` call event reporting `done = true`. -/
def Event.isDoneTransitionB : Event → Bool
  | Event.addTransition _ _ _ d => d
  | _ => false

/-- Recognizer: agent `train_on_batch` call event. -/
def Event.isTrainOnBatchB : Event → Bool
  | Event.trainOnBatch _ => true
  | _ => false

/-- Recognizer: stats sink `add_rolling_stats` call event. -/
def Event.isAddRollingStatsB : Event → Bool
  | Event.addRollingStats _ => true
  | _ => false

/-- The action batch the agent produces at the start of a day step. -/
def Trainer.dayAction (agent : Agent) (s : TrainerState) : List Nat :=
  (agent.act_on_batch s.current_state_batch s.agent_memory).1

/-- The act metadata (`memory_state_after` entry) produced at a day step. -/
def Trainer.dayMeta (agent : Agent) (s : TrainerState) : Option (List Nat) :=
  (agent.act_on_batch s.current_state_batch s.agent_memory).2

/-- The environment step result obtained at a day step. -/
def Trainer.dayRes (agent : Agent) (env : EnvOracle) (s : TrainerState) : StepResult :=
  env.stepFn s.env_history (Trainer.dayAction agent s)

/-- The per-slot loop's output at a day step. -/
def Trainer.dayAlloc (agent : Agent) (env : EnvOracle) (statsPresent : Bool)
    (s : TrainerState) : List Nat × Nat × List Event :=
  Trainer.processSlots statsPresent s.current_episode_indices
    (Trainer.dayAction agent s) (Trainer.dayRes agent env s).rewards
    (Trainer.dayRes agent env s).done s.next_episode_index

/-- Equation lemma unfolding one day step into its observers. -/
theorem Trainer.day_step_eq (agent : Agent) (env : EnvOracle) (statsPresent : Bool)
    (s : TrainerState) :
    Trainer.day_step agent env statsPresent s =
      ({ current_episode_indices := (Trainer.dayAlloc agent env statsPresent s).1
         next_episode_index := (Trainer.dayAlloc agent env statsPresent s).2.1
         agent_memory := agent.update_memory_batch s.agent_memory
           (Trainer.dayMeta agent s) (Trainer.dayAction agent s)
           (Trainer.dayRes agent env s).done
         current_state_batch := (Trainer.dayRes agent env s).next_state
         env_history := s.env_history ++ [Trainer.dayAction agent s]
         events := s.events ++ [Event.envStep (Trainer.dayAction agent s)]
           ++ (Trainer.dayAlloc agent env statsPresent s).2.2 },
       { memory_before := s.agent_memory
         current_state := s.current_state_batch
         actions := Trainer.dayAction agent s
         act_metadata := Trainer.dayMeta agent s
         rewards := (Trainer.dayRes agent env s).rewards
         done := (Trainer.dayRes agent env s).done
         next_state := (Trainer.dayRes agent env s).next_state }) := rfl

/-- The per-slot loop keeps the episode index list's length. -/
theorem processSlots_fst_length (sp : Bool) (is : List Nat) (as rs ds : List _)
    (next : Nat) :
    (Trainer.processSlots sp is as rs ds next).1.length = is.length := by
  induction is generalizing as rs ds next with
  | nil => rfl
  | cons idx tl ih => simp [Trainer.processSlots, ih]

/-- The per-slot loop never decreases the next-episode-index counter. -/
theorem processSlots_next_mono (sp : Bool) (is : List Nat) (as rs ds : List _)
    (next : Nat) :
    next ≤ (Trainer.processSlots sp is as rs ds next).2.1 := by
  induction is generalizing as rs ds next with
  | nil => simp [Trainer.processSlots]
  | cons idx tl ih =>
    simp only [Trainer.processSlots]
    by_cases hd : ds.head?.getD false = true
    · simpa [hd] using Nat.le_trans (Nat.le_succ next) (ih as.tail rs.tail ds.tail (next + 1))
    · simpa [hd] using ih as.tail rs.tail ds.tail next

/-- Each slot's episode index either survives the per-slot loop unchanged
or becomes a fresh value taken from the counter range. -/
theorem processSlots_getD (sp : Bool) (is : List Nat) (as rs ds : List _)
    (next : Nat) (j : Nat) :
    (Trainer.processSlots sp is as rs ds next).1.getD j 0 = is.getD j 0 ∨
      (next ≤ (Trainer.processSlots sp is as rs ds next).1.getD j 0 ∧
       (Trainer.processSlots sp is as rs ds next).1.getD j 0 <
         (Trainer.processSlots sp is as rs ds next).2.1) := by
  induction is generalizing as rs ds next j with
  | nil => left; simp [Trainer.processSlots]
  | cons idx tl ih =>
    simp only [Trainer.processSlots]
    by_cases hd : ds.head?.getD false = true
    · cases j with
      | zero =>
        right
        refine ⟨by simp [hd], ?_⟩
        simpa [hd] using Nat.lt_of_lt_of_le (Nat.lt_succ_self next)
          (processSlots_next_mono sp tl as.tail rs.tail ds.tail (next + 1))
      | succ j =>
        rcases ih as.tail rs.tail ds.tail (next + 1) j with h | ⟨h1, h2⟩
        · left; simpa [hd] using h
        · right
          exact ⟨by simpa [hd] using Nat.le_trans (Nat.le_succ next) h1, by simpa [hd] using h2⟩
    · cases j with
      | zero => left; simp [hd]
      | succ j =>
        rcases ih as.tail rs.tail ds.tail next j with h | ⟨h1, h2⟩
        · left; simpa [hd] using h
        · right; exact ⟨by simpa [hd] using h1, by simpa [hd] using h2⟩

/-- Every value in the per-slot loop's output index list is either an old
index or a fresh one at least the starting counter. -/
theorem processSlots_mem (sp : Bool) (is : List Nat) (as rs ds : List _)
    (next : Nat) :
    ∀ v ∈ (Trainer.processSlots sp is as rs ds next).1, v ∈ is ∨ next ≤ v := by
  induction is generalizing as rs ds next with
  | nil => simp [Trainer.processSlots]
  | cons idx tl ih =>
    intro v hv
    simp only [Trainer.processSlots] at hv
    by_cases hd : ds.headD false = true
    · rw [if_pos hd] at hv
      rcases List.mem_cons.mp hv with rfl | hv
      · right; exact Nat.le_refl _
      · rcases ih as.tail rs.tail ds.tail (next + 1) v hv with h | h
        · left; exact List.mem_cons_of_mem _ h
        · right; exact Nat.le_trans (Nat.le_succ next) h
    · rw [if_neg hd] at hv
      rcases List.mem_cons.mp hv with rfl | hv
      · left; exact List.mem_cons_self _ _
      · rcases ih as.tail rs.tail ds.tail next v hv with h | h
        · left; exact List.mem_cons_of_mem _ h
        · right; exact h

/-- If all incoming indices are below the counter, all outgoing indices are
below the outgoing counter. -/
theorem processSlots_bounded (sp : Bool) (is : List Nat) (as rs ds : List _)
    (next : Nat) (hb : ∀ x ∈ is, x < next) :
    ∀ x ∈ (Trainer.processSlots sp is as rs ds next).1,
      x < (Trainer.processSlots sp is as rs ds next).2.1 := by
  induction is generalizing as rs ds next with
  | nil => simp [Trainer.processSlots]
  | cons idx tl ih =>
    intro x hx
    simp only [Trainer.processSlots] at hx ⊢
    by_cases hd : ds.headD false = true
    · rw [if_pos hd] at hx ⊢
      rcases List.mem_cons.mp hx with rfl | hx
      · exact Nat.lt_of_lt_of_le (Nat.lt_succ_self _)
          (processSlots_next_mono sp tl as.tail rs.tail ds.tail _)
      · exact ih as.tail rs.tail ds.tail (next + 1)
          (fun y hy => Nat.lt_succ_of_lt (hb y (List.mem_cons_of_mem _ hy))) x hx
    · rw [if_neg hd] at hx ⊢
      rcases List.mem_cons.mp hx with rfl | hx
      · exact Nat.lt_of_lt_of_le (hb _ (List.mem_cons_self _ _))
          (processSlots_next_mono sp tl as.tail rs.tail ds.tail _)
      · exact ih as.tail rs.tail ds.tail next
          (fun y hy => hb y (List.mem_cons_of_mem _ hy)) x hx

/-- The per-slot loop keeps the episode index list duplicate-free provided
all incoming indices are below the counter. -/
theorem processSlots_nodup (sp : Bool) (is : List Nat) (as rs ds : List _)
    (next : Nat) (hn : is.Nodup) (hb : ∀ x ∈ is, x < next) :
    (Trainer.processSlots sp is as rs ds next).1.Nodup := by
  induction is generalizing as rs ds next with
  | nil => simp [Trainer.processSlots]
  | cons idx tl ih =>
    simp only [Trainer.processSlots]
    rcases List.nodup_cons.mp hn with ⟨hidx, htl⟩
    by_cases hd : ds.headD false = true
    · rw [if_pos hd]
      refine List.nodup_cons.mpr ⟨?_, ?_⟩
      · intro hmem
        rcases processSlots_mem sp tl as.tail rs.tail ds.tail (next + 1) _ hmem with h | h
        · exact Nat.lt_irrefl next (hb next (List.mem_cons_of_mem _ h))
        · exact Nat.not_succ_le_self next h
      · exact ih as.tail rs.tail ds.tail (next + 1) htl
          (fun y hy => Nat.lt_succ_of_lt (hb y (List.mem_cons_of_mem _ hy)))
    · rw [if_neg hd]
      refine List.nodup_cons.mpr ⟨?_, ?_⟩
      · intro hmem
        rcases processSlots_mem sp tl as.tail rs.tail ds.tail next _ hmem with h | h
        · exact hidx h
        · exact Nat.lt_irrefl idx (Nat.lt_of_lt_of_le (hb idx (List.mem_cons_self _ _)) h)
      · exact ih as.tail rs.tail ds.tail next htl
          (fun y hy => hb y (List.mem_cons_of_mem _ hy))

/-- With a stats sink present, the counter advances by exactly the number
of emitted `add_transition` events reporting `done = true`: an episode
index is consumed exactly when a slot's step reports termination. -/
theorem processSlots_next_eq_doneCount (is : List Nat) (as rs ds : List _)
    (next : Nat) :
    (Trainer.processSlots true is as rs ds next).2.1 =
      next + (Trainer.processSlots true is as rs ds next).2.2.countP
        Event.isDoneTransitionB := by
  induction is generalizing as rs ds next with
  | nil => simp [Trainer.processSlots]
  | cons idx tl ih =>
    simp only [Trainer.processSlots, if_true, List.countP_append, List.countP_cons]
    by_cases hd : ds.headD false = true
    · rw [if_pos hd]
      rw [List.headD_eq_head?] at hd
      simp [Event.isDoneTransitionB, hd, ih as.tail rs.tail ds.tail (next + 1)]
      omega
    · rw [if_neg hd]
      simp only [Bool.not_eq_true, List.headD_eq_head?] at hd
      simp [Event.isDoneTransitionB, hd, ih as.tail rs.tail ds.tail next]

/-- Without a stats sink there is no `add_transition` recording at all. -/
theorem processSlots_events_sp_false (is : List Nat) (as rs ds : List _)
    (next : Nat) :
    (Trainer.processSlots false is as rs ds next).2.2 = [] := by
  induction is generalizing as rs ds next with
  | nil => rfl
  | cons idx tl ih => simp [Trainer.processSlots, ih]

/-- Whether a stats sink is present does not change how the per-slot loop
updates the episode index list. -/
theorem processSlots_fst_sp_irrel (sp : Bool) (is : List Nat) (as rs ds : List _)
    (next : Nat) :
    (Trainer.processSlots sp is as rs ds next).1 =
      (Trainer.processSlots true is as rs ds next).1 := by
  induction is generalizing as rs ds next with
  | nil => rfl
  | cons idx tl ih => simp [Trainer.processSlots, ih]

/-- Whether a stats sink is present does not change the episode counter. -/
theorem processSlots_next_sp_irrel (sp : Bool) (is : List Nat) (as rs ds : List _)
    (next : Nat) :
    (Trainer.processSlots sp is as rs ds next).2.1 =
      (Trainer.processSlots true is as rs ds next).2.1 := by
  induction is generalizing as rs ds next with
  | nil => rfl
  | cons idx tl ih => simp [Trainer.processSlots, ih]

/-- Every event the per-slot loop emits is an `add_transition` call. -/
theorem processSlots_events_shape (sp : Bool) (is : List Nat) (as rs ds : List _)
    (next : Nat) :
    ∀ ev ∈ (Trainer.processSlots sp is as rs ds next).2.2,
      Event.isAddTransitionB ev = true := by
  induction is generalizing as rs ds next with
  | nil => simp [Trainer.processSlots]
  | cons idx tl ih =>
    intro ev hev
    simp only [Trainer.processSlots, List.mem_append] at hev
    rcases hev with hev | hev
    · by_cases hs : sp = true
      · rw [if_pos hs] at hev
        rcases List.mem_singleton.mp hev with rfl
        rfl
      · rw [if_neg hs] at hev
        exact absurd hev (List.not_mem_nil ev)
    · exact ih as.tail rs.tail ds.tail _ ev hev

/-- Specification-side description of episode index reallocation (spec
section 4.1): slots with `done = true` receive consecutive fresh indices
starting at the counter, in slot order; other slots keep their index. -/
def allocIndices : List Nat → List Bool → Nat → List Nat
  | i :: is, d :: ds, next =>
    if d then next :: allocIndices is ds (next + 1)
    else i :: allocIndices is ds next
  | is, _, _ => is

/-- Specification-side description of the stats recording of one day step:
one `add_transition` call per slot, in slot order, each carrying the
slot's pre-increment episode index together with that slot's action,
reward and done flag. -/
def expectedTransitionEvents : List Nat → List Nat → List Int → List Bool → List Event
  | i :: is, a :: as, r :: rs, d :: ds =>
    Event.addTransition i a r d :: expectedTransitionEvents is as rs ds
  | _, _, _, _ => []

/-- With a stats sink present and well-formed batch lengths, the per-slot
loop of `_run_day` is exactly: record every slot under its pre-increment
episode index, reallocate the indices of finished slots from the counter,
and advance the counter by the number of finished slots. -/
theorem processSlots_spec_eq (is : List Nat) (as : List Nat) (rs : List Int)
    (ds : List Bool) (next : Nat) (ha : as.length = is.length)
    (hr : rs.length = is.length) (hd : ds.length = is.length) :
    Trainer.processSlots true is as rs ds next =
      (allocIndices is ds next, next + ds.count true,
       expectedTransitionEvents is as rs ds) := by
  induction is generalizing as rs ds next with
  | nil =>
    rw [List.length_nil, List.length_eq_zero] at ha hr hd
    subst ha; subst hr; subst hd
    rfl
  | cons idx tl ih =>
    cases as with
    | nil => simp at ha
    | cons a as =>
      cases rs with
      | nil => simp at hr
      | cons r rs =>
        cases ds with
        | nil => simp at hd
        | cons d ds =>
          simp only [List.length_cons, Nat.succ.injEq] at ha hr hd
          cases d with
          | true =>
            simp [Trainer.processSlots, allocIndices, expectedTransitionEvents,
              List.count_cons, ih as rs ds (next + 1) ha hr hd]
            omega
          | false =>
            simp [Trainer.processSlots, allocIndices, expectedTransitionEvents,
              List.count_cons, ih as rs ds next ha hr hd]

/-- A finished slot's reallocated index is the counter plus the number of
finished slots before it. -/
theorem allocIndices_getD_done (is : List Nat) (ds : List Bool) (next i : Nat)
    (hlen : ds.length = is.length) (hi : i < is.length)
    (hdone : ds.getD i false = true) :
    (allocIndices is ds next).getD i 0 = next + (ds.take i).count true := by
  induction is generalizing ds next i with
  | nil => simp at hi
  | cons idx tl ih =>
    cases ds with
    | nil => simp at hlen
    | cons d ds =>
      simp only [List.length_cons, Nat.succ.injEq] at hlen
      cases i with
      | zero =>
        simp only [List.getD_cons_zero] at hdone
        subst hdone
        simp [allocIndices]
      | succ i =>
        simp only [List.getD_cons_succ] at hdone
        simp only [List.length_cons, Nat.succ_lt_succ_iff] at hi
        cases d with
        | true =>
          rw [show allocIndices (idx :: tl) (true :: ds) next =
              next :: allocIndices tl ds (next + 1) from rfl,
            List.getD_cons_succ, ih ds (next + 1) i hlen hi hdone,
            List.take_succ_cons, List.count_cons]
          simp
          omega
        | false =>
          rw [show allocIndices (idx :: tl) (false :: ds) next =
              idx :: allocIndices tl ds next from rfl,
            List.getD_cons_succ, ih ds next i hlen hi hdone,
            List.take_succ_cons, List.count_cons]
          simp

/-- An unfinished slot keeps its episode index. -/
theorem allocIndices_getD_not_done (is : List Nat) (ds : List Bool) (next i : Nat)
    (hdone : ds.getD i false = false) :
    (allocIndices is ds next).getD i 0 = is.getD i 0 := by
  induction is generalizing ds next i with
  | nil => simp [allocIndices]
  | cons idx tl ih =>
    cases ds with
    | nil => simp [allocIndices]
    | cons d ds =>
      cases i with
      | zero =>
        simp only [List.getD_cons_zero] at hdone
        subst hdone
        simp [allocIndices]
      | succ i =>
        simp only [List.getD_cons_succ] at hdone
        cases d with
        | true => simpa [allocIndices] using ih ds (next + 1) i hdone
        | false => simpa [allocIndices] using ih ds next i hdone

/-- The batch-size contracts of spec sections 4.2 and 4.3: the environment
stepper's `reset` and `step` results and the agent's batches all cover
exactly the `N` environment slots. -/
structure Contracts (agent : Agent) (env : EnvOracle) (N : Nat) : Prop where
  reset_len : env.resetBatch.length = N
  init_mem_len : (agent.init_memory_batch N).length = N
  act_len : ∀ sb mb, sb.length = N → mb.length = N →
    (agent.act_on_batch sb mb).1.length = N
  update_len : ∀ pm ms ab d, pm.length = N →
    (agent.update_memory_batch pm ms ab d).length = N
  step_rewards_len : ∀ hist ab, ab.length = N → (env.stepFn hist ab).rewards.length = N
  step_done_len : ∀ hist ab, ab.length = N → (env.stepFn hist ab).done.length = N
  step_next_len : ∀ hist ab, ab.length = N → (env.stepFn hist ab).next_state.length = N

/-- Well-formedness of the trainer state for `N` slots: the episode index
list, the memory batch and the observation batch each have one entry per
slot. -/
def TrainerState.wf (s : TrainerState) (N : Nat) : Prop :=
  s.current_episode_indices.length = N ∧ s.agent_memory.length = N ∧
    s.current_state_batch.length = N

/-- The episode-index bookkeeping invariant: the per-slot indices are
pairwise distinct and all below the next-episode-index counter. -/
def EpInv (s : TrainerState) : Prop :=
  s.current_episode_indices.Nodup ∧
    ∀ x ∈ s.current_episode_indices, x < s.next_episode_index

/-- Freshly constructed trainers are well-formed. -/
theorem init_wf (agent : Agent) (env : EnvOracle) (N : Nat)
    (hc : Contracts agent env N) : (Trainer.init agent env N).wf N :=
  ⟨List.length_range N, hc.init_mem_len, hc.reset_len⟩

/-- Freshly constructed trainers satisfy the episode-index invariant. -/
theorem init_epinv (agent : Agent) (env : EnvOracle) (N : Nat) :
    EpInv (Trainer.init agent env N) :=
  ⟨List.nodup_range N, fun _ hx => List.mem_range.mp hx⟩

/-- The action batch produced at a well-formed state covers all slots. -/
theorem dayAction_len (agent : Agent) (env : EnvOracle) (N : Nat)
    (hc : Contracts agent env N) (s : TrainerState) (hw : s.wf N) :
    (Trainer.dayAction agent s).length = N :=
  hc.act_len _ _ hw.2.2 hw.2.1

/-- One day step keeps the trainer state well-formed. -/
theorem day_step_wf (agent : Agent) (env : EnvOracle) (sp : Bool) (N : Nat)
    (hc : Contracts agent env N) (s : TrainerState) (hw : s.wf N) :
    ((Trainer.day_step agent env sp s).1).wf N := by
  refine ⟨?_, ?_, ?_⟩
  · show (Trainer.dayAlloc agent env sp s).1.length = N
    rw [Trainer.dayAlloc, processSlots_fst_length]
    exact hw.1
  · exact hc.update_len _ _ _ _ hw.2.1
  · exact hc.step_next_len _ _ (dayAction_len agent env N hc s hw)

/-- One day step preserves the episode-index invariant. -/
theorem day_step_epinv (agent : Agent) (env : EnvOracle) (sp : Bool)
    (s : TrainerState) (hi : EpInv s) :
    EpInv ((Trainer.day_step agent env sp s).1) :=
  ⟨processSlots_nodup sp _ _ _ _ _ hi.1 hi.2,
   processSlots_bounded sp _ _ _ _ _ hi.2⟩

/-- One day step never decreases the episode counter. -/
theorem day_step_next_mono (agent : Agent) (env : EnvOracle) (sp : Bool)
    (s : TrainerState) :
    s.next_episode_index ≤
      ((Trainer.day_step agent env sp s).1).next_episode_index :=
  processSlots_next_mono sp _ _ _ _ _

/-- Across one day step, each slot's episode index either survives
unchanged or is replaced by a fresh value at least the old counter. -/
theorem day_step_idx_step (agent : Agent) (env : EnvOracle) (sp : Bool)
    (s : TrainerState) (j : Nat) :
    ((Trainer.day_step agent env sp s).1).current_episode_indices.getD j 0 =
        s.current_episode_indices.getD j 0 ∨
      s.next_episode_index ≤
        ((Trainer.day_step agent env sp s).1).current_episode_indices.getD j 0 := by
  rcases processSlots_getD sp s.current_episode_indices (Trainer.dayAction agent s)
      (Trainer.dayRes agent env s).rewards (Trainer.dayRes agent env s).done
      s.next_episode_index j with h | ⟨h1, _⟩
  · exact Or.inl h
  · exact Or.inr h1

/-- Across one day step, each slot's episode index never decreases. -/
theorem day_step_idx_mono (agent : Agent) (env : EnvOracle) (sp : Bool)
    (s : TrainerState) (hi : EpInv s) (j : Nat) :
    s.current_episode_indices.getD j 0 ≤
      ((Trainer.day_step agent env sp s).1).current_episode_indices.getD j 0 := by
  rcases day_step_idx_step agent env sp s j with h | h
  · exact Nat.le_of_eq h.symm
  · by_cases hj : j < s.current_episode_indices.length
    · refine Nat.le_trans (Nat.le_of_lt ?_) h
      rw [List.getD_eq_getElem _ _ hj]
      exact hi.2 _ (List.getElem_mem hj)
    · rw [List.getD_eq_default _ _ (Nat.le_of_not_lt hj)]
      exact Nat.zero_le _

/-- An `add_transition` event is not an environment `step` event. -/
theorem not_envStep_of_addTransition (ev : Event)
    (h : Event.isAddTransitionB ev = true) : Event.isEnvStepB ev = false := by
  cases ev <;> simp_all [Event.isAddTransitionB, Event.isEnvStepB]

/-- Only `add_transition` events can report `done = true`. -/
theorem addTransition_of_doneTransition (ev : Event)
    (h : Event.isDoneTransitionB ev = true) : Event.isAddTransitionB ev = true := by
  cases ev <;> simp_all [Event.isAddTransitionB, Event.isDoneTransitionB]

/-- Trace of a full day stage: the collection loop only appends events,
the appended events are exactly `h` environment `step` calls interleaved
with `add_transition` calls, and — with a stats sink — the episode counter
advances by the number of recorded `done = true` transitions. -/
theorem run_day_loop_trace (agent : Agent) (env : EnvOracle) (sp : Bool)
    (h : Nat) (s : TrainerState) :
    ∃ t, ((Trainer.run_day_loop agent env sp h s).1).events = s.events ++ t ∧
      t.countP Event.isEnvStepB = h ∧
      (∀ ev ∈ t, Event.isEnvStepB ev = true ∨ Event.isAddTransitionB ev = true) ∧
      (sp = true →
        ((Trainer.run_day_loop agent env sp h s).1).next_episode_index =
          s.next_episode_index + t.countP Event.isDoneTransitionB) := by
  induction h generalizing s with
  | zero => exact ⟨[], by simp [Trainer.run_day_loop]⟩
  | succ n ih =>
    rcases ih (Trainer.day_step agent env sp s).1 with ⟨t, ht, hcount, hshape, hnext⟩
    refine ⟨[Event.envStep (Trainer.dayAction agent s)]
        ++ (Trainer.dayAlloc agent env sp s).2.2 ++ t, ?_, ?_, ?_, ?_⟩
    · show ((Trainer.run_day_loop agent env sp n
          (Trainer.day_step agent env sp s).1).1).events = _
      rw [ht]
      have he : ((Trainer.day_step agent env sp s).1).events =
          s.events ++ [Event.envStep (Trainer.dayAction agent s)]
            ++ (Trainer.dayAlloc agent env sp s).2.2 := rfl
      rw [he]
      simp [List.append_assoc]
    · have hz : ((Trainer.dayAlloc agent env sp s).2.2).countP Event.isEnvStepB = 0 :=
        List.countP_eq_zero.mpr (fun ev hev => by
          rw [not_envStep_of_addTransition ev
            (processSlots_events_shape sp _ _ _ _ _ ev hev)]
          simp)
      simp [List.countP_append, hz, hcount, Event.isEnvStepB]
    · intro ev hev
      simp only [List.append_assoc, List.mem_append, List.mem_singleton] at hev
      rcases hev with rfl | hev | hev
      · left; rfl
      · right; exact processSlots_events_shape sp _ _ _ _ _ ev hev
      · exact hshape ev hev
    · intro hsp
      subst hsp
      have h1 : ((Trainer.day_step agent env true s).1).next_episode_index =
          s.next_episode_index +
            ((Trainer.dayAlloc agent env true s).2.2).countP Event.isDoneTransitionB :=
        processSlots_next_eq_doneCount _ _ _ _ _
      have h2 := hnext rfl
      show ((Trainer.run_day_loop agent env true n
          (Trainer.day_step agent env true s).1).1).next_episode_index = _
      rw [h2, h1]
      simp [List.countP_append, Event.isDoneTransitionB]
      omega

/-- The collection loop keeps the trainer state well-formed. -/
theorem run_day_loop_wf (agent : Agent) (env : EnvOracle) (sp : Bool) (N : Nat)
    (hc : Contracts agent env N) (h : Nat) (s : TrainerState) (hw : s.wf N) :
    ((Trainer.run_day_loop agent env sp h s).1).wf N := by
  induction h generalizing s with
  | zero => exact hw
  | succ n ih => exact ih _ (day_step_wf agent env sp N hc s hw)

/-- The collection loop preserves the episode-index invariant. -/
theorem run_day_loop_epinv (agent : Agent) (env : EnvOracle) (sp : Bool)
    (h : Nat) (s : TrainerState) (hi : EpInv s) :
    EpInv ((Trainer.run_day_loop agent env sp h s).1) := by
  induction h generalizing s with
  | zero => exact hi
  | succ n ih => exact ih _ (day_step_epinv agent env sp s hi)

/-- The collection loop never decreases the episode counter. -/
theorem run_day_loop_next_mono (agent : Agent) (env : EnvOracle) (sp : Bool)
    (h : Nat) (s : TrainerState) :
    s.next_episode_index ≤
      ((Trainer.run_day_loop agent env sp h s).1).next_episode_index := by
  induction h generalizing s with
  | zero => exact Nat.le_refl _
  | succ n ih =>
    exact Nat.le_trans (day_step_next_mono agent env sp s)
      (ih (Trainer.day_step agent env sp s).1)

/-- Across a full collection loop, each slot's episode index either
survives unchanged or is replaced by a value at least the old counter. -/
theorem run_day_loop_idx_step (agent : Agent) (env : EnvOracle) (sp : Bool)
    (h : Nat) (s : TrainerState) (j : Nat) :
    ((Trainer.run_day_loop agent env sp h s).1).current_episode_indices.getD j 0 =
        s.current_episode_indices.getD j 0 ∨
      s.next_episode_index ≤
        ((Trainer.run_day_loop agent env sp h s).1).current_episode_indices.getD j 0 := by
  induction h generalizing s with
  | zero => exact Or.inl rfl
  | succ n ih =>
    rcases ih (Trainer.day_step agent env sp s).1 with h1 | h1
    · rcases day_step_idx_step agent env sp s j with h2 | h2
      · exact Or.inl (h1.trans h2)
      · exact Or.inr (h1 ▸ h2)
    · exact Or.inr (Nat.le_trans (day_step_next_mono agent env sp s) h1)

/-- Across a full collection loop, each slot's episode index never
decreases. -/
theorem run_day_loop_idx_mono (agent : Agent) (env : EnvOracle) (sp : Bool)
    (h : Nat) (s : TrainerState) (hi : EpInv s) (j : Nat) :
    s.current_episode_indices.getD j 0 ≤
      ((Trainer.run_day_loop agent env sp h s).1).current_episode_indices.getD j 0 := by
  induction h generalizing s with
  | zero => exact Nat.le_refl _
  | succ n ih =>
    exact Nat.le_trans (day_step_idx_mono agent env sp s hi j)
      (ih (Trainer.day_step agent env sp s).1 (day_step_epinv agent env sp s hi))

/-- A full training step leaves `current_episode_indices` exactly as the
day stage left it (the night stage owns no episode bookkeeping). -/
theorem run_training_step_indices (kind : TrainerKind) (agent : Agent)
    (env : EnvOracle) (sp : Bool) (h N : Nat) (s : TrainerState) :
    ((Trainer.run_training_step kind agent env sp h N s).1).current_episode_indices =
      ((Trainer.run_day_loop agent env sp h s).1).current_episode_indices := rfl

/-- A full training step leaves `next_episode_index` exactly as the day
stage left it. -/
theorem run_training_step_next (kind : TrainerKind) (agent : Agent)
    (env : EnvOracle) (sp : Bool) (h N : Nat) (s : TrainerState) :
    ((Trainer.run_training_step kind agent env sp h N s).1).next_episode_index =
      ((Trainer.run_day_loop agent env sp h s).1).next_episode_index := rfl

/-- A full training step's event trace is the day stage's trace followed
by the night stage's events. -/
theorem run_training_step_events (kind : TrainerKind) (agent : Agent)
    (env : EnvOracle) (sp : Bool) (h N : Nat) (s : TrainerState) :
    ((Trainer.run_training_step kind agent env sp h N s).1).events =
      ((Trainer.run_day_loop agent env sp h s).1).events ++
        (Trainer.run_night kind agent sp
          (Trainer.stack_transition_batches N
            (Trainer.run_day_loop agent env sp h s).2)).1 := rfl

/-- A full training step keeps the trainer state well-formed. -/
theorem run_training_step_wf (kind : TrainerKind) (agent : Agent)
    (env : EnvOracle) (sp : Bool) (h N : Nat)
    (hc : Contracts agent env N) (s : TrainerState) (hw : s.wf N) :
    ((Trainer.run_training_step kind agent env sp h N s).1).wf N :=
  run_day_loop_wf agent env sp N hc h s hw

/-- A full training step preserves the episode-index invariant. -/
theorem run_training_step_epinv (kind : TrainerKind) (agent : Agent)
    (env : EnvOracle) (sp : Bool) (h N : Nat) (s : TrainerState) (hi : EpInv s) :
    EpInv ((Trainer.run_training_step kind agent env sp h N s).1) := by
  constructor
  · rw [run_training_step_indices]
    exact (run_day_loop_epinv agent env sp h s hi).1
  · intro x hx
    rw [run_training_step_indices] at hx
    rw [run_training_step_next]
    exact (run_day_loop_epinv agent env sp h s hi).2 x hx

/-- Sequencing of repeated training steps. -/
theorem run_steps_add (kind : TrainerKind) (agent : Agent) (env : EnvOracle)
    (sp : Bool) (h N : Nat) (a b : Nat) (s : TrainerState) :
    Trainer.run_steps kind agent env sp h N (a + b) s =
      Trainer.run_steps kind agent env sp h N b
        (Trainer.run_steps kind agent env sp h N a s) := by
  induction a generalizing s with
  | zero => rw [Nat.zero_add]; rfl
  | succ n ih =>
    show Trainer.run_steps kind agent env sp h N (n + 1 + b) s = _
    rw [Nat.add_right_comm n 1 b]
    exact ih (Trainer.run_training_step kind agent env sp h N s).1

/-- Repeated training steps preserve the episode-index invariant. -/
theorem run_steps_epinv (kind : TrainerKind) (agent : Agent) (env : EnvOracle)
    (sp : Bool) (h N : Nat) (k : Nat) (s : TrainerState) (hi : EpInv s) :
    EpInv (Trainer.run_steps kind agent env sp h N k s) := by
  induction k generalizing s with
  | zero => exact hi
  | succ n ih =>
    exact ih _ (run_training_step_epinv kind agent env sp h N s hi)

/-- Repeated training steps never decrease the episode counter. -/
theorem run_steps_next_mono (kind : TrainerKind) (agent : Agent) (env : EnvOracle)
    (sp : Bool) (h N : Nat) (k : Nat) (s : TrainerState) :
    s.next_episode_index ≤
      (Trainer.run_steps kind agent env sp h N k s).next_episode_index := by
  induction k generalizing s with
  | zero => exact Nat.le_refl _
  | succ n ih =>
    refine Nat.le_trans ?_ (ih (Trainer.run_training_step kind agent env sp h N s).1)
    rw [run_training_step_next]
    exact run_day_loop_next_mono agent env sp h s

/-- Across any number of training steps, each slot's episode index either
survives unchanged or is replaced by a value at least the old counter. -/
theorem run_steps_idx_step (kind : TrainerKind) (agent : Agent) (env : EnvOracle)
    (sp : Bool) (h N : Nat) (k : Nat) (s : TrainerState) (j : Nat) :
    (Trainer.run_steps kind agent env sp h N k s).current_episode_indices.getD j 0 =
        s.current_episode_indices.getD j 0 ∨
      s.next_episode_index ≤
        (Trainer.run_steps kind agent env sp h N k s).current_episode_indices.getD j 0 := by
  induction k generalizing s with
  | zero => exact Or.inl rfl
  | succ n ih =>
    have hstep : Trainer.run_steps kind agent env sp h N (n + 1) s =
        Trainer.run_steps kind agent env sp h N n
          (Trainer.run_training_step kind agent env sp h N s).1 := rfl
    rw [hstep]
    rcases ih (Trainer.run_training_step kind agent env sp h N s).1 with h1 | h1
    · rw [h1, run_training_step_indices]
      rcases run_day_loop_idx_step agent env sp h s j with h2 | h2
      · exact Or.inl h2
      · exact Or.inr h2
    · refine Or.inr (Nat.le_trans ?_ h1)
      rw [run_training_step_next]
      exact run_day_loop_next_mono agent env sp h s

/-- Across any number of training steps, each slot's episode index never
decreases. -/
theorem run_steps_idx_mono (kind : TrainerKind) (agent : Agent) (env : EnvOracle)
    (sp : Bool) (h N : Nat) (k : Nat) (s : TrainerState) (hi : EpInv s) (j : Nat) :
    s.current_episode_indices.getD j 0 ≤
      (Trainer.run_steps kind agent env sp h N k s).current_episode_indices.getD j 0 := by
  induction k generalizing s with
  | zero => exact Nat.le_refl _
  | succ n ih =>
    refine Nat.le_trans ?_
      (ih (Trainer.run_training_step kind agent env sp h N s).1
        (run_training_step_epinv kind agent env sp h N s hi))
    rw [run_training_step_indices]
    exact run_day_loop_idx_mono agent env sp h s hi j

/-- Trace of a full day stage at a well-formed state, with batch sizes:
the appended events are `h` environment `step` calls whose action batches
each cover exactly the `N` slots, interleaved with `add_transition`
calls. -/
theorem run_day_loop_trace_len (agent : Agent) (env : EnvOracle) (sp : Bool)
    (N : Nat) (hc : Contracts agent env N) (h : Nat) (s : TrainerState)
    (hw : s.wf N) :
    ∃ t, ((Trainer.run_day_loop agent env sp h s).1).events = s.events ++ t ∧
      t.countP Event.isEnvStepB = h ∧
      ∀ ev ∈ t, (∃ ab, ev = Event.envStep ab ∧ ab.length = N) ∨
        Event.isAddTransitionB ev = true := by
  induction h generalizing s with
  | zero => exact ⟨[], by simp [Trainer.run_day_loop]⟩
  | succ n ih =>
    rcases ih (Trainer.day_step agent env sp s).1
        (day_step_wf agent env sp N hc s hw) with ⟨t, ht, hcount, hshape⟩
    refine ⟨[Event.envStep (Trainer.dayAction agent s)]
        ++ (Trainer.dayAlloc agent env sp s).2.2 ++ t, ?_, ?_, ?_⟩
    · show ((Trainer.run_day_loop agent env sp n
          (Trainer.day_step agent env sp s).1).1).events = _
      rw [ht]
      have he : ((Trainer.day_step agent env sp s).1).events =
          s.events ++ [Event.envStep (Trainer.dayAction agent s)]
            ++ (Trainer.dayAlloc agent env sp s).2.2 := rfl
      rw [he]
      simp [List.append_assoc]
    · have hz : ((Trainer.dayAlloc agent env sp s).2.2).countP Event.isEnvStepB = 0 :=
        List.countP_eq_zero.mpr (fun ev hev => by
          rw [not_envStep_of_addTransition ev
            (processSlots_events_shape sp _ _ _ _ _ ev hev)]
          simp)
      simp [List.countP_append, hz, hcount, Event.isEnvStepB]
    · intro ev hev
      simp only [List.append_assoc, List.mem_append, List.mem_singleton] at hev
      rcases hev with rfl | hev | hev
      · exact Or.inl ⟨Trainer.dayAction agent s, rfl, dayAction_len agent env N hc s hw⟩
      · exact Or.inr (processSlots_events_shape sp _ _ _ _ _ ev hev)
      · exact hshape ev hev

/-- Every event a night stage emits is a `train_on_batch` or an
`add_rolling_stats` call. -/
theorem run_night_shape (kind : TrainerKind) (agent : Agent) (sp : Bool)
    (c : List (List SlotRecord)) :
    ∀ ev ∈ (Trainer.run_night kind agent sp c).1,
      Event.isTrainOnBatchB ev = true ∨ Event.isAddRollingStatsB ev = true := by
  intro ev hev
  cases kind with
  | dummy => exact absurd hev (List.not_mem_nil ev)
  | onPolicy =>
    by_cases hs : sp = true
    · subst hs
      simp only [Trainer.run_night, OnPolicyTrainer.run_night, if_true,
        List.mem_cons, List.mem_singleton] at hev
      rcases hev with rfl | rfl | hev
      · exact Or.inl rfl
      · exact Or.inr rfl
      · exact absurd hev (List.not_mem_nil ev)
    · rw [Bool.not_eq_true] at hs
      subst hs
      simp only [Trainer.run_night, OnPolicyTrainer.run_night, Bool.false_eq_true,
        if_false, List.mem_singleton] at hev
      subst hev
      exact Or.inl rfl

/-- A minimal conforming agent used to instantiate theorems: zero actions,
memory carried unchanged, trivial training statistics. -/
def trivAgent : Agent :=
  { init_memory_batch := fun n => List.replicate n 0
    act_on_batch := fun sb _ => (List.replicate sb.length 0, none)
    update_memory_batch := fun pm _ _ _ => pm
    train_on_batch := fun _ => 0 }

/-- A minimal conforming environment oracle that never terminates an
episode. -/
def trivEnv (N : Nat) : EnvOracle :=
  { resetBatch := List.replicate N 0
    stepFn := fun _ ab =>
      { rewards := List.replicate ab.length 1
        done := List.replicate ab.length false
        next_state := List.replicate ab.length 0 } }

/-- A conforming environment oracle that terminates every slot's episode
at every step. -/
def doneEnv (N : Nat) : EnvOracle :=
  { resetBatch := List.replicate N 0
    stepFn := fun _ ab =>
      { rewards := List.replicate ab.length 1
        done := List.replicate ab.length true
        next_state := List.replicate ab.length 0 } }

/-- The minimal agent and environment satisfy the batch-size contracts. -/
theorem trivContracts (N : Nat) : Contracts trivAgent (trivEnv N) N := by
  constructor <;> intros <;> simp_all [trivAgent, trivEnv]

/-- The always-done environment also satisfies the batch-size contracts. -/
theorem doneContracts (N : Nat) : Contracts trivAgent (doneEnv N) N := by
  constructor <;> intros <;> simp_all [trivAgent, doneEnv]

/-- Claim C1: for every `num_collection_steps h > 0` and `num_envs N > 0`,
one call to `run_training_step` calls the environment batch stepper's
`step` exactly `h` times, each time with an action batch covering all `N`
slots, and never calls `reset`; `reset` is called exactly once, at
`Trainer` construction. -/
theorem c1_env_step_call_discipline (kind : TrainerKind) (agent : Agent)
    (env : EnvOracle) (sp : Bool) (h N : Nat) (s : TrainerState)
    (hc : Contracts agent env N) (hw : s.wf N) (_hh : 0 < h) (_hN : 0 < N) :
    (Trainer.init agent env N).events = [Event.reset] ∧
    ∃ t, ((Trainer.run_training_step kind agent env sp h N s).1).events =
        s.events ++ t ∧
      t.countP Event.isEnvStepB = h ∧
      (∀ ev ∈ t, Event.isEnvStepB ev = true →
        ∃ ab, ev = Event.envStep ab ∧ ab.length = N) ∧
      t.countP Event.isResetB = 0 := by
  refine ⟨rfl, ?_⟩
  rcases run_day_loop_trace_len agent env sp N hc h s hw with ⟨t0, ht0, hcnt, hshape⟩
  refine ⟨t0 ++ (Trainer.run_night kind agent sp
      (Trainer.stack_transition_batches N
        (Trainer.run_day_loop agent env sp h s).2)).1, ?_, ?_, ?_, ?_⟩
  · rw [run_training_step_events, ht0, List.append_assoc]
  · rw [List.countP_append]
    have hz : ((Trainer.run_night kind agent sp
        (Trainer.stack_transition_batches N
          (Trainer.run_day_loop agent env sp h s).2)).1).countP Event.isEnvStepB = 0 := by
      refine List.countP_eq_zero.mpr (fun ev hev => ?_)
      rcases run_night_shape kind agent sp _ ev hev with hsh | hsh <;>
        cases ev <;> simp_all [Event.isTrainOnBatchB, Event.isAddRollingStatsB,
          Event.isEnvStepB]
    rw [hcnt, hz]
    exact Nat.add_zero h
  · intro ev hev hstep
    rcases List.mem_append.mp hev with hev | hev
    · rcases hshape ev hev with hsh | hsh
      · exact hsh
      · rw [not_envStep_of_addTransition ev hsh] at hstep
        exact absurd hstep (by simp)
    · rcases run_night_shape kind agent sp _ ev hev with hsh | hsh <;>
        cases ev <;> simp_all [Event.isTrainOnBatchB, Event.isAddRollingStatsB,
          Event.isEnvStepB]
  · refine List.countP_eq_zero.mpr (fun ev hev => ?_)
    rcases List.mem_append.mp hev with hev | hev
    · rcases hshape ev hev with ⟨ab, rfl, _⟩ | hsh
      · simp [Event.isResetB]
      · cases ev <;> simp_all [Event.isAddTransitionB, Event.isResetB]
    · rcases run_night_shape kind agent sp _ ev hev with hsh | hsh <;>
        cases ev <;> simp_all [Event.isTrainOnBatchB, Event.isAddRollingStatsB,
          Event.isResetB]

/-- Witness for claim C1 at a concrete configuration: one slot, one
collection step, minimal agent and environment. -/
theorem c1_env_step_call_discipline_witness :
    (Trainer.init trivAgent (trivEnv 1) 1).events = [Event.reset] ∧
    ∃ t, ((Trainer.run_training_step TrainerKind.dummy trivAgent (trivEnv 1) true 1 1
        (Trainer.init trivAgent (trivEnv 1) 1)).1).events =
        (Trainer.init trivAgent (trivEnv 1) 1).events ++ t ∧
      t.countP Event.isEnvStepB = 1 ∧
      (∀ ev ∈ t, Event.isEnvStepB ev = true →
        ∃ ab, ev = Event.envStep ab ∧ ab.length = 1) ∧
      t.countP Event.isResetB = 0 :=
  c1_env_step_call_discipline TrainerKind.dummy trivAgent (trivEnv 1) true 1 1
    (Trainer.init trivAgent (trivEnv 1) 1) (trivContracts 1)
    ⟨by decide, by decide, by decide⟩ (by decide) (by decide)

/-- One day step keeps the number of episode index slots, with no
assumptions: the reallocation is pointwise. -/
theorem day_step_indices_length (agent : Agent) (env : EnvOracle) (sp : Bool)
    (s : TrainerState) :
    ((Trainer.day_step agent env sp s).1).current_episode_indices.length =
      s.current_episode_indices.length := by
  show (Trainer.dayAlloc agent env sp s).1.length = _
  rw [Trainer.dayAlloc, processSlots_fst_length]

/-- The collection loop keeps the number of episode index slots. -/
theorem run_day_loop_indices_length (agent : Agent) (env : EnvOracle) (sp : Bool)
    (h : Nat) (s : TrainerState) :
    ((Trainer.run_day_loop agent env sp h s).1).current_episode_indices.length =
      s.current_episode_indices.length := by
  induction h generalizing s with
  | zero => rfl
  | succ n ih =>
    exact (ih (Trainer.day_step agent env sp s).1).trans
      (day_step_indices_length agent env sp s)

/-- Repeated training steps keep the number of episode index slots. -/
theorem run_steps_indices_length (kind : TrainerKind) (agent : Agent)
    (env : EnvOracle) (sp : Bool) (h N : Nat) (k : Nat) (s : TrainerState) :
    (Trainer.run_steps kind agent env sp h N k s).current_episode_indices.length =
      s.current_episode_indices.length := by
  induction k generalizing s with
  | zero => rfl
  | succ n ih =>
    refine ((ih (Trainer.run_training_step kind agent env sp h N s).1).trans ?_)
    rw [run_training_step_indices]
    exact run_day_loop_indices_length agent env sp h s

/-- Reaching the later of two step counts from the earlier one. -/
theorem run_steps_split (kind : TrainerKind) (agent : Agent) (env : EnvOracle)
    (sp : Bool) (h N : Nat) (k k' : Nat) (hk : k' ≤ k) (s : TrainerState) :
    Trainer.run_steps kind agent env sp h N k s =
      Trainer.run_steps kind agent env sp h N (k - k')
        (Trainer.run_steps kind agent env sp h N k' s) := by
  rw [← run_steps_add, Nat.add_sub_cancel' hk]

/-- Claim C2: episode index allocation invariant.  `current_episode_indices`
starts as `[0..N-1]` with `next_episode_index = N`; across any sequence of
`run_training_step` calls each slot's episode index starts at the slot
number, never decreases and strictly increases whenever it changes, no
index value is ever assigned to two different (slot, episode) pairings,
and — with a stats sink — the counter is consumed exactly once per
reported `done = true` transition. -/
theorem c2_episode_index_invariant (kind : TrainerKind) (agent : Agent)
    (env : EnvOracle) (sp : Bool) (h N : Nat) :
    (Trainer.init agent env N).current_episode_indices = List.range N ∧
    (Trainer.init agent env N).next_episode_index = N ∧
    (∀ i, i < N →
      (Trainer.run_steps kind agent env sp h N 0
        (Trainer.init agent env N)).current_episode_indices.getD i 0 = i) ∧
    (∀ k, EpInv (Trainer.run_steps kind agent env sp h N k (Trainer.init agent env N))) ∧
    (∀ k k', k' ≤ k → ∀ j,
      (Trainer.run_steps kind agent env sp h N k'
          (Trainer.init agent env N)).current_episode_indices.getD j 0 ≤
        (Trainer.run_steps kind agent env sp h N k
          (Trainer.init agent env N)).current_episode_indices.getD j 0) ∧
    (∀ k k', k' ≤ k → ∀ j,
      (Trainer.run_steps kind agent env sp h N k
          (Trainer.init agent env N)).current_episode_indices.getD j 0 ≠
        (Trainer.run_steps kind agent env sp h N k'
          (Trainer.init agent env N)).current_episode_indices.getD j 0 →
      (Trainer.run_steps kind agent env sp h N k'
          (Trainer.init agent env N)).current_episode_indices.getD j 0 <
        (Trainer.run_steps kind agent env sp h N k
          (Trainer.init agent env N)).current_episode_indices.getD j 0) ∧
    (∀ k k', k' ≤ k → ∀ i j, i < N → j < N → i ≠ j →
      (Trainer.run_steps kind agent env sp h N k'
          (Trainer.init agent env N)).current_episode_indices.getD i 0 ≠
        (Trainer.run_steps kind agent env sp h N k
          (Trainer.init agent env N)).current_episode_indices.getD j 0) ∧
    (sp = true → ∀ k, ∃ t,
      (Trainer.run_steps kind agent env sp h N (k + 1)
          (Trainer.init agent env N)).events =
        (Trainer.run_steps kind agent env sp h N k
          (Trainer.init agent env N)).events ++ t ∧
      (Trainer.run_steps kind agent env sp h N (k + 1)
          (Trainer.init agent env N)).next_episode_index =
        (Trainer.run_steps kind agent env sp h N k
            (Trainer.init agent env N)).next_episode_index +
          t.countP Event.isDoneTransitionB) := by
  have hinv : ∀ k, EpInv (Trainer.run_steps kind agent env sp h N k
      (Trainer.init agent env N)) := fun k =>
    run_steps_epinv kind agent env sp h N k _ (init_epinv agent env N)
  have hlen : ∀ k, (Trainer.run_steps kind agent env sp h N k
      (Trainer.init agent env N)).current_episode_indices.length = N := fun k => by
    rw [run_steps_indices_length]
    exact List.length_range N
  have hsplit : ∀ k k', k' ≤ k →
      Trainer.run_steps kind agent env sp h N k (Trainer.init agent env N) =
        Trainer.run_steps kind agent env sp h N (k - k')
          (Trainer.run_steps kind agent env sp h N k' (Trainer.init agent env N)) :=
    fun k k' hk => run_steps_split kind agent env sp h N k k' hk _
  refine ⟨rfl, rfl, ?_, hinv, ?_, ?_, ?_, ?_⟩
  · intro i hi
    show (List.range N).getD i 0 = i
    rw [List.getD_eq_getElem _ _ (by simpa using hi)]
    simp
  · intro k k' hk j
    rw [hsplit k k' hk]
    exact run_steps_idx_mono kind agent env sp h N (k - k') _ (hinv k') j
  · intro k k' hk j hne
    rw [hsplit k k' hk] at hne ⊢
    rcases run_steps_idx_step kind agent env sp h N (k - k')
        (Trainer.run_steps kind agent env sp h N k' (Trainer.init agent env N)) j
      with heq | hge
    · exact absurd heq hne
    · by_cases hj : j < N
      · refine Nat.lt_of_lt_of_le ?_ hge
        rw [List.getD_eq_getElem _ _ (by rw [hlen k']; exact hj)]
        exact (hinv k').2 _ (List.getElem_mem _)
      · have hlen2 : (Trainer.run_steps kind agent env sp h N (k - k')
            (Trainer.run_steps kind agent env sp h N k'
              (Trainer.init agent env N))).current_episode_indices.length = N := by
          rw [run_steps_indices_length]; exact hlen k'
        rw [List.getD_eq_default _ _ (by rw [hlen2]; exact Nat.le_of_not_lt hj),
          List.getD_eq_default _ _ (by rw [hlen k']; exact Nat.le_of_not_lt hj)] at hne
        exact absurd rfl hne
  · intro k k' hk i j hi hj hij
    rw [hsplit k k' hk]
    rcases run_steps_idx_step kind agent env sp h N (k - k')
        (Trainer.run_steps kind agent env sp h N k' (Trainer.init agent env N)) j
      with heq | hge
    · rw [heq]
      intro habs
      have hii : i < (Trainer.run_steps kind agent env sp h N k'
          (Trainer.init agent env N)).current_episode_indices.length := by
        rw [hlen k']; exact hi
      have hjj : j < (Trainer.run_steps kind agent env sp h N k'
          (Trainer.init agent env N)).current_episode_indices.length := by
        rw [hlen k']; exact hj
      rw [List.getD_eq_getElem _ _ hii, List.getD_eq_getElem _ _ hjj] at habs
      exact hij (((hinv k').1.getElem_inj_iff).mp habs)
    · intro habs
      refine Nat.lt_irrefl _ (Nat.lt_of_lt_of_le ?_ (habs ▸ hge))
      rw [List.getD_eq_getElem _ _ (by rw [hlen k']; exact hi)]
      exact (hinv k').2 _ (List.getElem_mem _)
  · intro hsp k
    subst hsp
    rcases run_day_loop_trace agent env true h
        (Trainer.run_steps kind agent env true h N k (Trainer.init agent env N))
      with ⟨t0, ht0, _, _, hnext⟩
    refine ⟨t0 ++ (Trainer.run_night kind agent true
        (Trainer.stack_transition_batches N
          (Trainer.run_day_loop agent env true h
            (Trainer.run_steps kind agent env true h N k
              (Trainer.init agent env N))).2)).1, ?_, ?_⟩
    · have hstep : Trainer.run_steps kind agent env true h N (k + 1)
          (Trainer.init agent env N) =
          (Trainer.run_training_step kind agent env true h N
            (Trainer.run_steps kind agent env true h N k
              (Trainer.init agent env N))).1 := by
        rw [run_steps_add kind agent env true h N k 1]
        rfl
      rw [hstep, run_training_step_events, ht0, List.append_assoc]
    · have hstep : Trainer.run_steps kind agent env true h N (k + 1)
          (Trainer.init agent env N) =
          (Trainer.run_training_step kind agent env true h N
            (Trainer.run_steps kind agent env true h N k
              (Trainer.init agent env N))).1 := by
        rw [run_steps_add kind agent env true h N k 1]
        rfl
      rw [hstep, run_training_step_next, hnext rfl, List.countP_append]
      have hz : ((Trainer.run_night kind agent true
          (Trainer.stack_transition_batches N
            (Trainer.run_day_loop agent env true h
              (Trainer.run_steps kind agent env true h N k
                (Trainer.init agent env N))).2)).1).countP
            Event.isDoneTransitionB = 0 := by
        refine List.countP_eq_zero.mpr (fun ev hev => ?_)
        rcases run_night_shape kind agent true _ ev hev with hsh | hsh <;>
          cases ev <;> simp_all [Event.isTrainOnBatchB, Event.isAddRollingStatsB,
            Event.isDoneTransitionB]
      rw [hz, Nat.add_zero]

/-- Concrete trainer run used to instantiate the episode-index invariant:
two slots, one collection step per day, every episode ending every step. -/
def c2s (k : Nat) : TrainerState :=
  Trainer.run_steps TrainerKind.dummy trivAgent (doneEnv 2) true 1 2 k
    (Trainer.init trivAgent (doneEnv 2) 2)

/-- Witness for claim C2 at a concrete configuration. -/
theorem c2_episode_index_invariant_witness :
    (Trainer.init trivAgent (doneEnv 2) 2).current_episode_indices = List.range 2 ∧
    (Trainer.init trivAgent (doneEnv 2) 2).next_episode_index = 2 ∧
    (c2s 0).current_episode_indices.getD 1 0 = 1 ∧
    EpInv (c2s 3) ∧
    (c2s 1).current_episode_indices.getD 0 0 ≤
      (c2s 3).current_episode_indices.getD 0 0 ∧
    (c2s 1).current_episode_indices.getD 0 0 <
      (c2s 3).current_episode_indices.getD 0 0 ∧
    (c2s 1).current_episode_indices.getD 0 0 ≠
      (c2s 3).current_episode_indices.getD 1 0 ∧
    ∃ t, (c2s 1).events = (c2s 0).events ++ t ∧
      (c2s 1).next_episode_index =
        (c2s 0).next_episode_index + t.countP Event.isDoneTransitionB := by
  have T := c2_episode_index_invariant TrainerKind.dummy trivAgent (doneEnv 2) true 1 2
  exact ⟨T.1, T.2.1, T.2.2.1 1 (by decide), T.2.2.2.1 3,
    T.2.2.2.2.1 3 1 (by decide) 0,
    T.2.2.2.2.2.1 3 1 (by decide) 0 (by decide),
    T.2.2.2.2.2.2.1 3 1 (by decide) 0 1 (by decide) (by decide) (by decide),
    T.2.2.2.2.2.2.2 rfl 0⟩

/-- Claim C3: at every day step with a stats sink, each slot's transition
is recorded by `add_transition` under the slot's pre-increment episode
index (the index its episode started with), and only afterwards are the
finished slots' entries of `current_episode_indices` replaced by the next
unused indices, the counter advancing by the number of finished slots. -/
theorem c3_pre_increment_recording (agent : Agent) (env : EnvOracle)
    (s : TrainerState)
    (ha : (Trainer.dayAction agent s).length = s.current_episode_indices.length)
    (hr : (Trainer.dayRes agent env s).rewards.length = s.current_episode_indices.length)
    (hd : (Trainer.dayRes agent env s).done.length = s.current_episode_indices.length) :
    ((Trainer.day_step agent env true s).1).events =
      s.events ++ [Event.envStep (Trainer.dayAction agent s)] ++
        expectedTransitionEvents s.current_episode_indices
          (Trainer.dayAction agent s) (Trainer.dayRes agent env s).rewards
          (Trainer.dayRes agent env s).done ∧
    ((Trainer.day_step agent env true s).1).current_episode_indices =
      allocIndices s.current_episode_indices (Trainer.dayRes agent env s).done
        s.next_episode_index ∧
    ((Trainer.day_step agent env true s).1).next_episode_index =
      s.next_episode_index + (Trainer.dayRes agent env s).done.count true ∧
    (∀ i, i < s.current_episode_indices.length →
      ((Trainer.dayRes agent env s).done.getD i false = true →
        ((Trainer.day_step agent env true s).1).current_episode_indices.getD i 0 =
          s.next_episode_index +
            ((Trainer.dayRes agent env s).done.take i).count true) ∧
      ((Trainer.dayRes agent env s).done.getD i false = false →
        ((Trainer.day_step agent env true s).1).current_episode_indices.getD i 0 =
          s.current_episode_indices.getD i 0)) := by
  have hspec := processSlots_spec_eq s.current_episode_indices
    (Trainer.dayAction agent s) (Trainer.dayRes agent env s).rewards
    (Trainer.dayRes agent env s).done s.next_episode_index ha hr hd
  have hev : ((Trainer.day_step agent env true s).1).events =
      s.events ++ [Event.envStep (Trainer.dayAction agent s)] ++
        (Trainer.dayAlloc agent env true s).2.2 := rfl
  have hidx : ((Trainer.day_step agent env true s).1).current_episode_indices =
      (Trainer.dayAlloc agent env true s).1 := rfl
  have hnx : ((Trainer.day_step agent env true s).1).next_episode_index =
      (Trainer.dayAlloc agent env true s).2.1 := rfl
  rw [Trainer.dayAlloc] at hev hidx hnx
  rw [hspec] at hev hidx hnx
  refine ⟨hev, hidx, hnx, ?_⟩
  intro i hi
  constructor
  · intro hdone
    rw [hidx]
    exact allocIndices_getD_done s.current_episode_indices
      (Trainer.dayRes agent env s).done s.next_episode_index i hd hi hdone
  · intro hndone
    rw [hidx]
    exact allocIndices_getD_not_done s.current_episode_indices
      (Trainer.dayRes agent env s).done s.next_episode_index i hndone

/-- An environment oracle realizing the spec's scenario for four slots:
on the very first step only slot 2 reports `done = true`. -/
def slot2Env : EnvOracle :=
  { resetBatch := List.replicate 4 0
    stepFn := fun hist ab =>
      { rewards := List.replicate ab.length 1
        done := if hist.length = 0 then [false, false, true, false]
          else List.replicate ab.length false
        next_state := List.replicate ab.length 0 } }

/-- The trainer state at construction for the C3 scenario. -/
def c3s0 : TrainerState := Trainer.init trivAgent slot2Env 4

/-- Witness for claim C3: the spec's scenario with `N = 4`, indices
`[0,1,2,3]`, counter `4`, slot 2 finishing, yielding `[0,1,4,3]` and
counter `5`, the finished slot recorded under its old index `2`. -/
theorem c3_pre_increment_recording_witness :
    (Trainer.dayAction trivAgent c3s0).length =
      c3s0.current_episode_indices.length ∧
    (Trainer.dayRes trivAgent slot2Env c3s0).rewards.length =
      c3s0.current_episode_indices.length ∧
    (Trainer.dayRes trivAgent slot2Env c3s0).done.length =
      c3s0.current_episode_indices.length ∧
    ((Trainer.day_step trivAgent slot2Env true c3s0).1).current_episode_indices =
      allocIndices c3s0.current_episode_indices
        (Trainer.dayRes trivAgent slot2Env c3s0).done c3s0.next_episode_index ∧
    ((Trainer.day_step trivAgent slot2Env true c3s0).1).events =
      c3s0.events ++ [Event.envStep (Trainer.dayAction trivAgent c3s0)] ++
        expectedTransitionEvents c3s0.current_episode_indices
          (Trainer.dayAction trivAgent c3s0)
          (Trainer.dayRes trivAgent slot2Env c3s0).rewards
          (Trainer.dayRes trivAgent slot2Env c3s0).done ∧
    ((Trainer.day_step trivAgent slot2Env true c3s0).1).current_episode_indices =
      [0, 1, 4, 3] ∧
    ((Trainer.day_step trivAgent slot2Env true c3s0).1).next_episode_index = 5 ∧
    expectedTransitionEvents c3s0.current_episode_indices
        (Trainer.dayAction trivAgent c3s0)
        (Trainer.dayRes trivAgent slot2Env c3s0).rewards
        (Trainer.dayRes trivAgent slot2Env c3s0).done =
      [Event.addTransition 0 0 1 false, Event.addTransition 1 0 1 false,
       Event.addTransition 2 0 1 true, Event.addTransition 3 0 1 false] := by
  have C := c3_pre_increment_recording trivAgent slot2Env c3s0
    (by decide) (by decide) (by decide)
  exact ⟨by decide, by decide, by decide, C.2.1, C.1, by decide, by decide, by decide⟩

/-- The trainer state after `t` sequential day steps (day-step `t` of a
collection loop starts from `iter_day t`). -/
def Trainer.iter_day (agent : Agent) (env : EnvOracle) (sp : Bool) :
    Nat → TrainerState → TrainerState
  | 0, s => s
  | t + 1, s => Trainer.iter_day agent env sp t (Trainer.day_step agent env sp s).1

/-- The collection loop produces one transition record per step. -/
theorem run_day_loop_snd_length (agent : Agent) (env : EnvOracle) (sp : Bool)
    (h : Nat) (s : TrainerState) :
    (Trainer.run_day_loop agent env sp h s).2.length = h := by
  induction h generalizing s with
  | zero => rfl
  | succ n ih =>
    show ((Trainer.day_step agent env sp s).2 ::
      (Trainer.run_day_loop agent env sp n (Trainer.day_step agent env sp s).1).2).length = n + 1
    rw [List.length_cons, ih]

/-- The `t`-th transition record of the collection loop is exactly the
record produced by day-step `t`. -/
theorem run_day_loop_getD (agent : Agent) (env : EnvOracle) (sp : Bool)
    (h : Nat) (s : TrainerState) (t : Nat) (ht : t < h) :
    (Trainer.run_day_loop agent env sp h s).2.getD t default =
      (Trainer.day_step agent env sp (Trainer.iter_day agent env sp t s)).2 := by
  induction h generalizing s t with
  | zero => exact absurd ht (Nat.not_lt_zero t)
  | succ n ih =>
    cases t with
    | zero => rfl
    | succ t =>
      show ((Trainer.day_step agent env sp s).2 ::
          (Trainer.run_day_loop agent env sp n
            (Trainer.day_step agent env sp s).1).2).getD (t + 1) default = _
      rw [List.getD_cons_succ]
      exact ih (Trainer.day_step agent env sp s).1 t (Nat.lt_of_succ_lt_succ ht)

/-- The stacked trajectory batch has one row per slot. -/
theorem stack_length (N : Nat) (tbs : List TransitionBatch) :
    (Trainer.stack_transition_batches N tbs).length = N := by
  rw [Trainer.stack_transition_batches, List.length_map, List.length_range]

/-- Row `i` of the stacked trajectory batch is slot `i`'s time series. -/
theorem stack_getD (N : Nat) (tbs : List TransitionBatch) (i : Nat) (hi : i < N) :
    (Trainer.stack_transition_batches N tbs).getD i [] =
      tbs.map (fun tb => tb.slotRecord i) := by
  rw [List.getD_eq_getElem _ _ (by rw [stack_length]; exact hi)]
  simp [Trainer.stack_transition_batches]

/-- Claim C4: trajectory stacking is order-preserving: in the trajectory
batch the day stage returns, the record at slot-position `i` and
time-position `t` is the per-slot projection of the record produced at
day-step `t`, for all `t < h` and `i < N`; there are `N` slot rows of `h`
time entries each, and each record carries the pre-update memory and the
pre-step state of its step. -/
theorem c4_stacking_order_preserving (agent : Agent) (env : EnvOracle)
    (sp : Bool) (h N : Nat) (s : TrainerState) (t i : Nat)
    (ht : t < h) (hi : i < N) :
    ((Trainer.run_day agent env sp h N s).2.getD i []).getD t default =
      ((Trainer.day_step agent env sp (Trainer.iter_day agent env sp t s)).2).slotRecord i ∧
    (Trainer.run_day agent env sp h N s).2.length = N ∧
    ((Trainer.run_day agent env sp h N s).2.getD i []).length = h ∧
    ((Trainer.day_step agent env sp (Trainer.iter_day agent env sp t s)).2).memory_before =
      (Trainer.iter_day agent env sp t s).agent_memory ∧
    ((Trainer.day_step agent env sp (Trainer.iter_day agent env sp t s)).2).current_state =
      (Trainer.iter_day agent env sp t s).current_state_batch := by
  have hrow : (Trainer.run_day agent env sp h N s).2.getD i [] =
      (Trainer.run_day_loop agent env sp h s).2.map (fun tb => tb.slotRecord i) :=
    stack_getD N _ i hi
  refine ⟨?_, stack_length N _, ?_, rfl, rfl⟩
  · rw [hrow]
    have hlt : t < (Trainer.run_day_loop agent env sp h s).2.length := by
      rw [run_day_loop_snd_length]; exact ht
    rw [List.getD_eq_getElem _ _ (by rw [List.length_map]; exact hlt)]
    rw [List.getElem_map]
    rw [← List.getD_eq_getElem _ default hlt]
    rw [run_day_loop_getD agent env sp h s t ht]
  · rw [hrow, List.length_map, run_day_loop_snd_length]

/-- Witness for claim C4 at a concrete configuration: two slots, two
collection steps, slot 1 at time 1. -/
theorem c4_stacking_order_preserving_witness :
    (1 < 2 ∧ 1 < 2) ∧
    ((Trainer.run_day trivAgent (trivEnv 2) true 2 2
        (Trainer.init trivAgent (trivEnv 2) 2)).2.getD 1 []).getD 1 default =
      ((Trainer.day_step trivAgent (trivEnv 2) true
        (Trainer.iter_day trivAgent (trivEnv 2) true 1
          (Trainer.init trivAgent (trivEnv 2) 2))).2).slotRecord 1 ∧
    (Trainer.run_day trivAgent (trivEnv 2) true 2 2
        (Trainer.init trivAgent (trivEnv 2) 2)).2.length = 2 ∧
    ((Trainer.run_day trivAgent (trivEnv 2) true 2 2
        (Trainer.init trivAgent (trivEnv 2) 2)).2.getD 1 []).length = 2 ∧
    ((Trainer.day_step trivAgent (trivEnv 2) true
        (Trainer.iter_day trivAgent (trivEnv 2) true 1
          (Trainer.init trivAgent (trivEnv 2) 2))).2).memory_before =
      (Trainer.iter_day trivAgent (trivEnv 2) true 1
        (Trainer.init trivAgent (trivEnv 2) 2)).agent_memory ∧
    ((Trainer.day_step trivAgent (trivEnv 2) true
        (Trainer.iter_day trivAgent (trivEnv 2) true 1
          (Trainer.init trivAgent (trivEnv 2) 2))).2).current_state =
      (Trainer.iter_day trivAgent (trivEnv 2) true 1
        (Trainer.init trivAgent (trivEnv 2) 2)).current_state_batch := by
  have C := c4_stacking_order_preserving trivAgent (trivEnv 2) true 2 2
    (Trainer.init trivAgent (trivEnv 2) 2) 1 1 (by decide) (by decide)
  exact ⟨⟨by decide, by decide⟩, C.1, C.2.1, C.2.2.1, C.2.2.2.1, C.2.2.2.2⟩

/-- Claim C5: every `run_training_step` is the full day stage first — all
`h` collection steps, strictly sequential, then one stacked trajectory
batch of `N` rows with `h` entries each — and only then the night stage,
which emits no environment-interaction events and consumes the whole
trajectory batch as one unit (the on-policy variant trains exactly once,
on the full batch). -/
theorem c5_day_before_night (kind : TrainerKind) (agent : Agent)
    (env : EnvOracle) (sp : Bool) (h N : Nat) (s : TrainerState) :
    ((Trainer.run_training_step kind agent env sp h N s).1).events =
      ((Trainer.run_day agent env sp h N s).1).events ++
        (Trainer.run_night kind agent sp (Trainer.run_day agent env sp h N s).2).1 ∧
    (∀ ev ∈ (Trainer.run_night kind agent sp (Trainer.run_day agent env sp h N s).2).1,
      Event.isEnvStepB ev = false ∧ Event.isAddTransitionB ev = false) ∧
    Event.trainOnBatch (Trainer.run_day agent env sp h N s).2 ∈
      (Trainer.run_night TrainerKind.onPolicy agent sp
        (Trainer.run_day agent env sp h N s).2).1 ∧
    ((Trainer.run_night TrainerKind.onPolicy agent sp
      (Trainer.run_day agent env sp h N s).2).1).countP Event.isTrainOnBatchB = 1 ∧
    (Trainer.run_day agent env sp h N s).2.length = N ∧
    (∀ i, i < N → ((Trainer.run_day agent env sp h N s).2.getD i []).length = h) ∧
    (∀ t, t < h →
      (Trainer.run_day_loop agent env sp h s).2.getD t default =
        (Trainer.day_step agent env sp (Trainer.iter_day agent env sp t s)).2) ∧
    (∀ t, Trainer.iter_day agent env sp (t + 1) s =
      Trainer.iter_day agent env sp t ((Trainer.day_step agent env sp s).1)) := by
  refine ⟨run_training_step_events kind agent env sp h N s, ?_, ?_, ?_,
    stack_length N _, ?_, ?_, fun t => rfl⟩
  · intro ev hev
    rcases run_night_shape kind agent sp _ ev hev with hsh | hsh <;>
      cases ev <;> simp_all [Event.isTrainOnBatchB, Event.isAddRollingStatsB,
        Event.isEnvStepB, Event.isAddTransitionB]
  · by_cases hs : sp = true
    · subst hs
      exact List.mem_cons_self _ _
    · rw [Bool.not_eq_true] at hs
      subst hs
      exact List.mem_singleton.mpr rfl
  · by_cases hs : sp = true
    · subst hs
      simp [Trainer.run_night, OnPolicyTrainer.run_night, List.countP_cons,
        Event.isTrainOnBatchB, Event.isAddRollingStatsB]
    · rw [Bool.not_eq_true] at hs
      subst hs
      simp [Trainer.run_night, OnPolicyTrainer.run_night, List.countP_cons,
        Event.isTrainOnBatchB]
  · intro i hi
    show ((Trainer.stack_transition_batches N
      (Trainer.run_day_loop agent env sp h s).2).getD i []).length = h
    rw [stack_getD N _ i hi, List.length_map, run_day_loop_snd_length]
  · exact fun t ht => run_day_loop_getD agent env sp h s t ht

/-- Witness for claim C5 at a concrete configuration. -/
theorem c5_day_before_night_witness :
    ((Trainer.run_training_step TrainerKind.onPolicy trivAgent (trivEnv 2) true 2 2
        (Trainer.init trivAgent (trivEnv 2) 2)).1).events =
      ((Trainer.run_day trivAgent (trivEnv 2) true 2 2
          (Trainer.init trivAgent (trivEnv 2) 2)).1).events ++
        (Trainer.run_night TrainerKind.onPolicy trivAgent true
          (Trainer.run_day trivAgent (trivEnv 2) true 2 2
            (Trainer.init trivAgent (trivEnv 2) 2)).2).1 ∧
    ((Trainer.run_day trivAgent (trivEnv 2) true 2 2
        (Trainer.init trivAgent (trivEnv 2) 2)).2.getD 0 []).length = 2 ∧
    (Trainer.run_day_loop trivAgent (trivEnv 2) true 2
        (Trainer.init trivAgent (trivEnv 2) 2)).2.getD 1 default =
      (Trainer.day_step trivAgent (trivEnv 2) true
        (Trainer.iter_day trivAgent (trivEnv 2) true 1
          (Trainer.init trivAgent (trivEnv 2) 2))).2 ∧
    Event.trainOnBatch (Trainer.run_day trivAgent (trivEnv 2) true 2 2
        (Trainer.init trivAgent (trivEnv 2) 2)).2 ∈
      (Trainer.run_night TrainerKind.onPolicy trivAgent true
        (Trainer.run_day trivAgent (trivEnv 2) true 2 2
          (Trainer.init trivAgent (trivEnv 2) 2)).2).1 ∧
    Event.isEnvStepB (Event.trainOnBatch (Trainer.run_day trivAgent (trivEnv 2) true 2 2
      (Trainer.init trivAgent (trivEnv 2) 2)).2) = false := by
  have C := c5_day_before_night TrainerKind.onPolicy trivAgent (trivEnv 2) true 2 2
    (Trainer.init trivAgent (trivEnv 2) 2)
  exact ⟨C.1, C.2.2.2.2.2.1 0 (by decide), C.2.2.2.2.2.2.1 1 (by decide),
    C.2.2.1, (C.2.1 _ C.2.2.1).1⟩

/-- Claim C6: the on-policy night stage calls `train_on_batch` exactly
once per `run_training_step`, with the full stacked trajectory batch as
its sole input, then forwards the returned statistics to
`add_rolling_stats` exactly once. -/
theorem c6_on_policy_once (agent : Agent) (env : EnvOracle) (h N : Nat)
    (s : TrainerState) :
    ((Trainer.run_training_step TrainerKind.onPolicy agent env true h N s).1).events =
      ((Trainer.run_day agent env true h N s).1).events ++
        [Event.trainOnBatch (Trainer.run_day agent env true h N s).2,
         Event.addRollingStats
           (agent.train_on_batch (Trainer.run_day agent env true h N s).2)] ∧
    (Trainer.run_training_step TrainerKind.onPolicy agent env true h N s).2 = none ∧
    ((Trainer.run_training_step TrainerKind.onPolicy agent env true h N s).1).events.countP
        Event.isTrainOnBatchB = s.events.countP Event.isTrainOnBatchB + 1 ∧
    ((Trainer.run_training_step TrainerKind.onPolicy agent env true h N s).1).events.countP
        Event.isAddRollingStatsB = s.events.countP Event.isAddRollingStatsB + 1 := by
  rcases run_day_loop_trace agent env true h s with ⟨t0, ht0, _, hshape, _⟩
  have htz : t0.countP Event.isTrainOnBatchB = 0 :=
    List.countP_eq_zero.mpr (fun ev hev => by
      rcases hshape ev hev with hsh | hsh <;>
        cases ev <;> simp_all [Event.isEnvStepB, Event.isAddTransitionB,
          Event.isTrainOnBatchB])
  have hrz : t0.countP Event.isAddRollingStatsB = 0 :=
    List.countP_eq_zero.mpr (fun ev hev => by
      rcases hshape ev hev with hsh | hsh <;>
        cases ev <;> simp_all [Event.isEnvStepB, Event.isAddTransitionB,
          Event.isAddRollingStatsB])
  refine ⟨run_training_step_events TrainerKind.onPolicy agent env true h N s, rfl, ?_, ?_⟩
  · rw [run_training_step_events, ht0]
    simp [List.countP_append, htz, Trainer.run_night, OnPolicyTrainer.run_night,
      List.countP_cons, Event.isTrainOnBatchB, Event.isAddRollingStatsB]
  · rw [run_training_step_events, ht0]
    simp [List.countP_append, hrz, Trainer.run_night, OnPolicyTrainer.run_night,
      List.countP_cons, Event.isTrainOnBatchB, Event.isAddRollingStatsB]

/-- Claim C7: the no-op night stage leaves the stats accumulator's
rolling-stats untouched and performs no agent training: given any
trajectory batch it emits no events and raises nothing, and a dummy
`run_training_step` adds no `train_on_batch` and no `add_rolling_stats`
call to the trace and completes without error.  (The agent itself is a
value the trainer never replaces, so its parameters are unchanged by
construction.) -/
theorem c7_dummy_night_noop (agent : Agent) (env : EnvOracle) (sp : Bool)
    (h N : Nat) (s : TrainerState) (c : List (List SlotRecord)) :
    DummyTrainer.run_night agent sp c = ([], none) ∧
    ((Trainer.run_training_step TrainerKind.dummy agent env sp h N s).1).events.countP
        Event.isTrainOnBatchB = s.events.countP Event.isTrainOnBatchB ∧
    ((Trainer.run_training_step TrainerKind.dummy agent env sp h N s).1).events.countP
        Event.isAddRollingStatsB = s.events.countP Event.isAddRollingStatsB ∧
    (Trainer.run_training_step TrainerKind.dummy agent env sp h N s).2 = none := by
  rcases run_day_loop_trace agent env sp h s with ⟨t0, ht0, _, hshape, _⟩
  have htz : t0.countP Event.isTrainOnBatchB = 0 :=
    List.countP_eq_zero.mpr (fun ev hev => by
      rcases hshape ev hev with hsh | hsh <;>
        cases ev <;> simp_all [Event.isEnvStepB, Event.isAddTransitionB,
          Event.isTrainOnBatchB])
  have hrz : t0.countP Event.isAddRollingStatsB = 0 :=
    List.countP_eq_zero.mpr (fun ev hev => by
      rcases hshape ev hev with hsh | hsh <;>
        cases ev <;> simp_all [Event.isEnvStepB, Event.isAddTransitionB,
          Event.isAddRollingStatsB])
  refine ⟨rfl, ?_, ?_, rfl⟩
  · rw [run_training_step_events, ht0]
    simp [List.countP_append, htz, Trainer.run_night, DummyTrainer.run_night]
  · rw [run_training_step_events, ht0]
    simp [List.countP_append, hrz, Trainer.run_night, DummyTrainer.run_night]

/-- Counterexample to claim C8: constructing a `Trainer` with
`num_envs = 0` (and then running with `num_collection_steps = 0`)
does not fail at all — `__init__` performs no configuration validation
and yields a normal state, and the no-op run completes without error. -/
theorem c8_counterexample_no_fail_fast :
    Trainer.init trivAgent (trivEnv 0) 0 =
      { current_episode_indices := []
        next_episode_index := 0
        agent_memory := []
        current_state_batch := []
        env_history := []
        events := [Event.reset] } ∧
    (Trainer.run_training_step TrainerKind.dummy trivAgent (trivEnv 0) true 0 0
      (Trainer.init trivAgent (trivEnv 0) 0)).2 = none := by
  exact ⟨rfl, rfl⟩

/-- Amended claim C8: `Trainer` construction performs no configuration
validation: with `num_envs = 0` or `num_collection_steps = 0` it
constructs successfully (indices `[]`, counter `0`, the usual single
`reset` call), and no error is raised at construction or during a
subsequent `run_training_step` of the no-op variant (nor of the on-policy
variant when a stats sink is supplied). -/
theorem c8_amended_no_validation (agent : Agent) (env : EnvOracle)
    (sp : Bool) (h N : Nat) :
    (Trainer.init agent env 0).current_episode_indices = [] ∧
    (Trainer.init agent env 0).next_episode_index = 0 ∧
    (Trainer.init agent env N).events = [Event.reset] ∧
    (Trainer.run_training_step TrainerKind.dummy agent env sp h N
      (Trainer.init agent env N)).2 = none ∧
    (Trainer.run_training_step TrainerKind.onPolicy agent env true 0 0
      (Trainer.init agent env 0)).2 = none :=
  ⟨rfl, rfl, rfl, rfl, rfl⟩

/-- Claim C9: with `num_collection_steps = 0` the day stage performs no
environment step and returns an empty trajectory batch (every slot row
has zero time entries), and the no-op variant's `run_training_step`
completes on it without error, leaving the trace unchanged. -/
theorem c9_zero_steps_empty_batch (agent : Agent) (env : EnvOracle)
    (sp : Bool) (N : Nat) (s : TrainerState) :
    Trainer.run_day agent env sp 0 N s = (s, List.replicate N []) ∧
    ((Trainer.run_training_step TrainerKind.dummy agent env sp 0 N s).1).events =
      s.events ∧
    (Trainer.run_training_step TrainerKind.dummy agent env sp 0 N s).2 = none := by
  refine ⟨?_, ?_, rfl⟩
  · show (s, Trainer.stack_transition_batches N []) = (s, List.replicate N [])
    rw [Trainer.stack_transition_batches]
    simp [List.map_const']
  · show ((Trainer.run_day_loop agent env sp 0 s).1).events ++
      (Trainer.run_night TrainerKind.dummy agent sp
        (Trainer.run_day agent env sp 0 N s).2).1 = s.events
    show s.events ++ ([] : List Event) = s.events
    exact List.append_nil s.events

/-- Equality of all trainer state fields except the event trace. -/
def sameCore (s s' : TrainerState) : Prop :=
  s.current_episode_indices = s'.current_episode_indices ∧
  s.next_episode_index = s'.next_episode_index ∧
  s.agent_memory = s'.agent_memory ∧
  s.current_state_batch = s'.current_state_batch ∧
  s.env_history = s'.env_history

/-- A day step evolves the non-trace state identically whether or not a
stats sink is present; the transition record is identical too. -/
theorem day_step_sameCore (agent : Agent) (env : EnvOracle) (sp sp' : Bool)
    (s s' : TrainerState) (hsc : sameCore s s') :
    sameCore (Trainer.day_step agent env sp s).1 (Trainer.day_step agent env sp' s').1 ∧
    (Trainer.day_step agent env sp s).2 = (Trainer.day_step agent env sp' s').2 := by
  obtain ⟨hI, hN, hM, hS, hH⟩ := hsc
  have hact : Trainer.dayAction agent s = Trainer.dayAction agent s' := by
    rw [Trainer.dayAction, Trainer.dayAction, hM, hS]
  have hmeta : Trainer.dayMeta agent s = Trainer.dayMeta agent s' := by
    rw [Trainer.dayMeta, Trainer.dayMeta, hM, hS]
  have hres : Trainer.dayRes agent env s = Trainer.dayRes agent env s' := by
    rw [Trainer.dayRes, Trainer.dayRes, hH, hact]
  have halloc1 : (Trainer.dayAlloc agent env sp s).1 =
      (Trainer.dayAlloc agent env sp' s').1 := by
    rw [Trainer.dayAlloc, Trainer.dayAlloc, hI, hN, hact, hres,
      processSlots_fst_sp_irrel sp, processSlots_fst_sp_irrel sp']
  have halloc2 : (Trainer.dayAlloc agent env sp s).2.1 =
      (Trainer.dayAlloc agent env sp' s').2.1 := by
    rw [Trainer.dayAlloc, Trainer.dayAlloc, hI, hN, hact, hres,
      processSlots_next_sp_irrel sp, processSlots_next_sp_irrel sp']
  refine ⟨⟨halloc1, halloc2, ?_, ?_, ?_⟩, ?_⟩
  · show agent.update_memory_batch s.agent_memory (Trainer.dayMeta agent s)
        (Trainer.dayAction agent s) (Trainer.dayRes agent env s).done =
      agent.update_memory_batch s'.agent_memory (Trainer.dayMeta agent s')
        (Trainer.dayAction agent s') (Trainer.dayRes agent env s').done
    rw [hM, hmeta, hact, hres]
  · show (Trainer.dayRes agent env s).next_state =
      (Trainer.dayRes agent env s').next_state
    rw [hres]
  · show s.env_history ++ [Trainer.dayAction agent s] =
      s'.env_history ++ [Trainer.dayAction agent s']
    rw [hH, hact]
  · show ({ memory_before := s.agent_memory
            current_state := s.current_state_batch
            actions := Trainer.dayAction agent s
            act_metadata := Trainer.dayMeta agent s
            rewards := (Trainer.dayRes agent env s).rewards
            done := (Trainer.dayRes agent env s).done
            next_state := (Trainer.dayRes agent env s).next_state } : TransitionBatch) =
      { memory_before := s'.agent_memory
        current_state := s'.current_state_batch
        actions := Trainer.dayAction agent s'
        act_metadata := Trainer.dayMeta agent s'
        rewards := (Trainer.dayRes agent env s').rewards
        done := (Trainer.dayRes agent env s').done
        next_state := (Trainer.dayRes agent env s').next_state }
    rw [hM, hS, hact, hmeta, hres]

/-- The whole collection loop evolves the non-trace state identically
whether or not a stats sink is present. -/
theorem run_day_loop_sameCore (agent : Agent) (env : EnvOracle) (sp sp' : Bool)
    (h : Nat) (s s' : TrainerState) (hsc : sameCore s s') :
    sameCore (Trainer.run_day_loop agent env sp h s).1
      (Trainer.run_day_loop agent env sp' h s').1 := by
  induction h generalizing s s' with
  | zero => exact hsc
  | succ n ih =>
    exact ih (Trainer.day_step agent env sp s).1 (Trainer.day_step agent env sp' s').1
      (day_step_sameCore agent env sp sp' s s' hsc).1

/-- Trace of a day stage with no stats sink: only environment `step`
events are appended. -/
theorem run_day_loop_trace_no_stats (agent : Agent) (env : EnvOracle)
    (h : Nat) (s : TrainerState) :
    ∃ t, ((Trainer.run_day_loop agent env false h s).1).events = s.events ++ t ∧
      ∀ ev ∈ t, Event.isEnvStepB ev = true := by
  induction h generalizing s with
  | zero => exact ⟨[], by simp [Trainer.run_day_loop]⟩
  | succ n ih =>
    rcases ih (Trainer.day_step agent env false s).1 with ⟨t, ht, hshape⟩
    refine ⟨[Event.envStep (Trainer.dayAction agent s)] ++ t, ?_, ?_⟩
    · show ((Trainer.run_day_loop agent env false n
        (Trainer.day_step agent env false s).1).1).events = _
      rw [ht]
      have he : ((Trainer.day_step agent env false s).1).events =
          s.events ++ [Event.envStep (Trainer.dayAction agent s)]
            ++ (Trainer.dayAlloc agent env false s).2.2 := rfl
      have hz : (Trainer.dayAlloc agent env false s).2.2 = [] :=
        processSlots_events_sp_false _ _ _ _ _
      rw [he, hz]
      simp [List.append_assoc]
    · intro ev hev
      rcases List.mem_append.mp hev with hev | hev
      · rcases List.mem_singleton.mp hev with rfl
        rfl
      · exact hshape ev hev

/-- Claim C10: with `stats = None`, the on-policy `run_training_step`
always raises (after the day stage and after `train_on_batch`, at the
unconditional `add_rolling_stats` call), while the no-op variant
completes; and no `add_transition` recording happens during the day
stage, yet the episode indices and counter advance exactly as they would
with a stats sink. -/
theorem c10_stats_none_behavior (kind : TrainerKind) (agent : Agent)
    (env : EnvOracle) (h N : Nat) (s : TrainerState) :
    (Trainer.run_training_step TrainerKind.onPolicy agent env false h N s).2 =
      some PyError.attributeErrorOnNone ∧
    ((Trainer.run_training_step TrainerKind.onPolicy agent env false h N s).1).events =
      ((Trainer.run_day agent env false h N s).1).events ++
        [Event.trainOnBatch (Trainer.run_day agent env false h N s).2] ∧
    (Trainer.run_training_step TrainerKind.dummy agent env false h N s).2 = none ∧
    ((Trainer.run_training_step kind agent env false h N s).1).events.countP
        Event.isAddTransitionB = s.events.countP Event.isAddTransitionB ∧
    ((Trainer.run_training_step kind agent env false h N s).1).current_episode_indices =
      ((Trainer.run_training_step kind agent env true h N s).1).current_episode_indices ∧
    ((Trainer.run_training_step kind agent env false h N s).1).next_episode_index =
      ((Trainer.run_training_step kind agent env true h N s).1).next_episode_index := by
  have hsc := run_day_loop_sameCore agent env false true h s s ⟨rfl, rfl, rfl, rfl, rfl⟩
  rcases run_day_loop_trace_no_stats agent env h s with ⟨t0, ht0, hshape⟩
  have haz : t0.countP Event.isAddTransitionB = 0 :=
    List.countP_eq_zero.mpr (fun ev hev => by
      have := hshape ev hev
      cases ev <;> simp_all [Event.isEnvStepB, Event.isAddTransitionB])
  refine ⟨rfl, rfl, rfl, ?_, ?_, ?_⟩
  · rw [run_training_step_events, ht0]
    have hnz : ((Trainer.run_night kind agent false
        (Trainer.stack_transition_batches N
          (Trainer.run_day_loop agent env false h s).2)).1).countP
          Event.isAddTransitionB = 0 :=
      List.countP_eq_zero.mpr (fun ev hev => by
        rcases run_night_shape kind agent false _ ev hev with hsh | hsh <;>
          cases ev <;> simp_all [Event.isTrainOnBatchB, Event.isAddRollingStatsB,
            Event.isAddTransitionB])
    simp [List.countP_append, haz, hnz]
  · rw [run_training_step_indices, run_training_step_indices]
    exact hsc.1
  · rw [run_training_step_next, run_training_step_next]
    exact hsc.2.1

end Omega
